import Mathlib

/-!
A shallow embedding of the UVM register virtual machine (Rust sources:
asm.rs, parser.rs, serializer.rs, vm.rs, utils.rs, log_macros.rs) together
with theorems settling the specification claims about it.

Modelling conventions:
  * Rust machine integers are modelled as Lean Nat/Int with explicit
    reductions modulo 2^w where the Rust semantics wraps (i64 arithmetic in
    release mode wraps, per spec section 9).
  * IEEE-754 binary64 values are modelled by their 64-bit patterns (a Nat
    below 2^64); the arithmetic on them is kept abstract in a FloatOps
    structure, since no claim depends on a concrete float computation.
    The i64/f64 bit reinterpretations f2i/i2f of utils.rs are bitwise
    identities and are modelled concretely.
  * Fallible Rust code returning Result<_, String> is modelled by a result
    type with an explicit error message; a Rust panic (out-of-bounds Vec
    index, division by zero) is modelled by a separate crash constructor,
    since a panic aborts instead of returning an error string.  Because the
    Rust functions take &mut self, the error constructor carries the state
    as already mutated when the error value was produced.
-/

namespace UVM

/-- Two to the 63rd, the i64 sign bound. -/
def twoPow63 : Nat := 9223372036854775808

/-- Two to the 64th. -/
def twoPow64 : Nat := 18446744073709551616

/-- Wrapping i64 arithmetic: reduce an unbounded integer into
[-2^63, 2^63) as two's-complement wrap-around does. -/
def wrap64 (x : Int) : Int :=
  (x + (twoPow63 : Int)) % (twoPow64 : Int) - (twoPow63 : Int)

/-- utils.rs i2f: reinterpret an i64 as the 64-bit pattern of an f64
(bitwise identity, here the unsigned value of the two's-complement bits). -/
def i2f (v : Int) : Nat :=
  (v % (twoPow64 : Int)).toNat

/-- utils.rs f2i: reinterpret a 64-bit f64 pattern as an i64
(bitwise identity). -/
def f2i (bits : Nat) : Int :=
  if bits % twoPow64 < twoPow63 then (bits % twoPow64 : Int)
  else (bits % twoPow64 : Int) - (twoPow64 : Int)

/-- Little-endian byte encoding of the low `k` bytes of `n`
(Rust to_le_bytes). -/
def natLE : Nat → Nat → List Nat
  | 0, _ => []
  | k + 1, n => n % 256 :: natLE k (n / 256)

/-- Value of a little-endian byte list (Rust from_le_bytes). -/
def leVal : List Nat → Nat
  | [] => 0
  | b :: bs => b + 256 * leVal bs

/-- i64 to_le_bytes: the 8 little-endian bytes of the two's-complement
pattern. -/
def i64LE (v : Int) : List Nat := natLE 8 (i2f v)

/-- i64 from_le_bytes from an unsigned 64-bit pattern. -/
def decI64 (n : Nat) : Int :=
  if n < twoPow63 then (n : Int) else (n : Int) - (twoPow64 : Int)

theorem leVal_natLE : ∀ (k n : Nat), n < 256 ^ k → leVal (natLE k n) = n := by
  intro k
  induction k with
  | zero => intro n h; simpa [natLE, leVal] using by omega
  | succ k ih =>
    intro n h
    have hdiv : n / 256 < 256 ^ k := by
      have : 256 ^ (k + 1) = 256 ^ k * 256 := by ring
      omega
    simp [natLE, leVal, ih (n / 256) hdiv]
    omega

theorem decI64_i2f (v : Int) (h1 : -(twoPow63 : Int) ≤ v)
    (h2 : v < (twoPow63 : Int)) : decI64 (i2f v) = v := by
  unfold decI64 i2f twoPow63 twoPow64 at *
  have hmod := Int.emod_emod_of_dvd v (by norm_num :
    (18446744073709551616 : Int) ∣ 18446744073709551616)
  have hlt : v % (18446744073709551616 : Int) < 18446744073709551616 :=
    Int.emod_lt_of_pos v (by norm_num)
  have hge : 0 ≤ v % (18446744073709551616 : Int) :=
    Int.emod_nonneg v (by norm_num)
  have hv : v % (18446744073709551616 : Int) = v ∨
      v % (18446744073709551616 : Int) = v + 18446744073709551616 := by
    omega
  rcases hv with hv | hv <;> simp [hv] <;> omega

theorem i2f_lt (v : Int) : i2f v < twoPow64 := by
  unfold i2f twoPow64
  have hlt : v % (18446744073709551616 : Int) < 18446744073709551616 :=
    Int.emod_lt_of_pos v (by norm_num)
  have hge : 0 ≤ v % (18446744073709551616 : Int) :=
    Int.emod_nonneg v (by norm_num)
  omega

/-- asm.rs: the opcode enumeration, in declaration order (the numeric tag of
an opcode is its position). -/
inductive OpCode where
  | HALT | SET | SETF | MOV | PUSH | PUSHL | POP | PUSHRF | POPRF
  | ADD | ADDL | SUB | SUBL | SUB2L | MUL | MULL | DIV | DIVL | DIV2L | MOD
  | INC | DEC
  | ADDF | ADDFL | SUBF | SUBFL | SUBF2L | MULF | MULFL
  | DIVF | DIVFL | DIVF2L | POW | POW2 | POWL | POW2L | CEIL | FLOR
  | CMP | CMPL
  | JMP | JEQ | JLT | JLE | JGT | JGE | JNE
  | CALL | RET
  | DBGREG | DBGREGF | DBGREGS
  deriving DecidableEq, Repr

/-- asm.rs: `op as u8`, the numeric tag (enum discriminant by position). -/
def OpCode.tag : OpCode → Nat
  | .HALT => 0 | .SET => 1 | .SETF => 2 | .MOV => 3 | .PUSH => 4
  | .PUSHL => 5 | .POP => 6 | .PUSHRF => 7 | .POPRF => 8 | .ADD => 9
  | .ADDL => 10 | .SUB => 11 | .SUBL => 12 | .SUB2L => 13 | .MUL => 14
  | .MULL => 15 | .DIV => 16 | .DIVL => 17 | .DIV2L => 18 | .MOD => 19
  | .INC => 20 | .DEC => 21 | .ADDF => 22 | .ADDFL => 23 | .SUBF => 24
  | .SUBFL => 25 | .SUBF2L => 26 | .MULF => 27 | .MULFL => 28 | .DIVF => 29
  | .DIVFL => 30 | .DIVF2L => 31 | .POW => 32 | .POW2 => 33 | .POWL => 34
  | .POW2L => 35 | .CEIL => 36 | .FLOR => 37 | .CMP => 38 | .CMPL => 39
  | .JMP => 40 | .JEQ => 41 | .JLT => 42 | .JLE => 43 | .JGT => 44
  | .JGE => 45 | .JNE => 46 | .CALL => 47 | .RET => 48 | .DBGREG => 49
  | .DBGREGF => 50 | .DBGREGS => 51

/-- asm.rs OpCode::try_from_primitive / from_le_bytes: the opcode with a
given tag, if any. -/
def OpCode.ofTag : Nat → Option OpCode
  | 0 => some .HALT | 1 => some .SET | 2 => some .SETF | 3 => some .MOV
  | 4 => some .PUSH | 5 => some .PUSHL | 6 => some .POP | 7 => some .PUSHRF
  | 8 => some .POPRF | 9 => some .ADD | 10 => some .ADDL | 11 => some .SUB
  | 12 => some .SUBL | 13 => some .SUB2L | 14 => some .MUL | 15 => some .MULL
  | 16 => some .DIV | 17 => some .DIVL | 18 => some .DIV2L | 19 => some .MOD
  | 20 => some .INC | 21 => some .DEC | 22 => some .ADDF | 23 => some .ADDFL
  | 24 => some .SUBF | 25 => some .SUBFL | 26 => some .SUBF2L
  | 27 => some .MULF | 28 => some .MULFL | 29 => some .DIVF
  | 30 => some .DIVFL | 31 => some .DIVF2L | 32 => some .POW
  | 33 => some .POW2 | 34 => some .POWL | 35 => some .POW2L
  | 36 => some .CEIL | 37 => some .FLOR | 38 => some .CMP | 39 => some .CMPL
  | 40 => some .JMP | 41 => some .JEQ | 42 => some .JLT | 43 => some .JLE
  | 44 => some .JGT | 45 => some .JGE | 46 => some .JNE | 47 => some .CALL
  | 48 => some .RET | 49 => some .DBGREG | 50 => some .DBGREGF
  | 51 => some .DBGREGS
  | _ => none

theorem ofTag_tag (op : OpCode) : OpCode.ofTag op.tag = some op := by
  cases op <;> rfl

/-- asm.rs OpCode Display (the plain mnemonic). -/
def OpCode.toStr : OpCode → String
  | .HALT => "HALT" | .SET => "SET" | .SETF => "SETF" | .MOV => "MOV"
  | .PUSH => "PUSH" | .PUSHL => "PUSHL" | .POP => "POP"
  | .PUSHRF => "PUSHRF" | .POPRF => "POPRF" | .ADD => "ADD"
  | .ADDL => "ADDL" | .SUB => "SUB" | .SUBL => "SUBL" | .SUB2L => "SUB2L"
  | .MUL => "MUL" | .MULL => "MULL" | .DIV => "DIV" | .DIVL => "DIVL"
  | .DIV2L => "DIV2L" | .MOD => "MOD" | .INC => "INC" | .DEC => "DEC"
  | .ADDF => "ADDF" | .ADDFL => "ADDFL" | .SUBF => "SUBF"
  | .SUBFL => "SUBFL" | .SUBF2L => "SUBF2L" | .MULF => "MULF"
  | .MULFL => "MULFL" | .DIVF => "DIVF" | .DIVFL => "DIVFL"
  | .DIVF2L => "DIVF2L" | .POW => "POW" | .POW2 => "POW2" | .POWL => "POWL"
  | .POW2L => "POW2L" | .CEIL => "CEIL" | .FLOR => "FLOR" | .CMP => "CMP"
  | .CMPL => "CMPL" | .JMP => "JMP" | .JEQ => "JEQ" | .JLT => "JLT"
  | .JLE => "JLE" | .JGT => "JGT" | .JGE => "JGE" | .JNE => "JNE"
  | .CALL => "CALL" | .RET => "RET" | .DBGREG => "DBGREG"
  | .DBGREGF => "DBGREGF" | .DBGREGS => "DBGREGS"

/-- asm.rs: the operand shape of an opcode. -/
inductive OpArgT where
  | Nil | Reg | IntReg | RegReg | Addr | Int | RealReg
  deriving DecidableEq, Repr

/-- asm.rs OP_ARG_TYPES: the operand-shape table, indexed by opcode (the
Rust array indexed by `op as usize`, written as a total function). -/
def OP_ARG_TYPES : OpCode → OpArgT
  | .HALT => .Nil
  | .SET => .IntReg
  | .SETF => .RealReg
  | .MOV => .RegReg
  | .PUSH => .Reg
  | .PUSHL => .Int
  | .POP => .Reg
  | .PUSHRF => .Int
  | .POPRF => .Int
  | .ADD => .RegReg
  | .ADDL => .IntReg
  | .SUB => .RegReg
  | .SUBL => .IntReg
  | .SUB2L => .IntReg
  | .MUL => .RegReg
  | .MULL => .IntReg
  | .DIV => .RegReg
  | .DIVL => .IntReg
  | .DIV2L => .IntReg
  | .MOD => .RegReg
  | .INC => .Reg
  | .DEC => .Reg
  | .ADDF => .RegReg
  | .ADDFL => .RealReg
  | .SUBF => .RegReg
  | .SUBFL => .RealReg
  | .SUBF2L => .RealReg
  | .MULF => .RegReg
  | .MULFL => .RealReg
  | .DIVF => .RegReg
  | .DIVFL => .RealReg
  | .DIVF2L => .RealReg
  | .POW => .RegReg
  | .POW2 => .RegReg
  | .POWL => .IntReg
  | .POW2L => .IntReg
  | .CEIL => .Reg
  | .FLOR => .Reg
  | .CMP => .RegReg
  | .CMPL => .IntReg
  | .JMP => .Addr
  | .JEQ => .Addr
  | .JLT => .Addr
  | .JLE => .Addr
  | .JGT => .Addr
  | .JGE => .Addr
  | .JNE => .Addr
  | .CALL => .Addr
  | .RET => .Nil
  | .DBGREG => .Reg
  | .DBGREGF => .Reg
  | .DBGREGS => .Nil

/-- asm.rs: an instruction-stream atom.  Payload ranges guaranteed by the
Rust types (Reg: u8, Int: i64, Addr: usize, Real: f64 bit pattern) become
the well-formedness predicate wfCode below. -/
inductive Code where
  | Op (op : OpCode)
  | Reg (r : Nat)
  | Int (v : Int)
  | Addr (a : Nat)
  | Real (bits : Nat)
  deriving DecidableEq, Repr

/-- asm.rs Code Display, with the f64 Display kept abstract (fmtF renders a
bit pattern the way Rust Display renders the float). -/
def Code.disp (fmtF : Nat → String) : Code → String
  | .Op op => "\x1b[1m" ++ op.toStr ++ "\x1b[0m"
  | .Reg r => "r" ++ toString r
  | .Int v => toString v ++ "i"
  | .Addr a => "addr(" ++ toString a ++ ")"
  | .Real bits => fmtF bits ++ "f"

/-- log_macros.rs err!: the error-message prefix. -/
def errFmt (s : String) : String := "\x1b[1;31m[ERROR]\x1b[0m " ++ s

/-- log_macros.rs dbg!: the debug-message prefix. -/
def dbgFmt (s : String) : String := "\x1b[1;32m[DEBUG]\x1b[0m " ++ s

/-- serializer.rs UVM_BINARY_SIGNATURE, the 15-byte file signature. -/
def UVM_BINARY_SIGNATURE : List Nat :=
  [0x56, 0x69, 0x63, 0x74, 0x68, 0x6f, 0x72, 0x20, 0x69, 0x73, 0x20, 0x43,
   0x30, 0x30, 0x4c]

/-- serializer.rs UVM_BINARY_VERSION. -/
def UVM_BINARY_VERSION : Nat := 0x01

/-- Result of serialize: the bytes, an error string, or a Rust panic
(out-of-bounds Vec index on a stream ending mid-instruction). -/
inductive SerRes where
  | ok (bytes : List Nat)
  | err (msg : String)
  | crash (msg : String)
  deriving DecidableEq, Repr

/-- Prefix bytes onto a serializer result. -/
def SerRes.pre (bs : List Nat) : SerRes → SerRes
  | .ok rest => .ok (bs ++ rest)
  | .err m => .err m
  | .crash m => .crash m

/-- The message of the Rust index-out-of-bounds panic (the concrete indices
are immaterial to the claims and are not reproduced). -/
def oobMsg : String := "index out of bounds"

/-- Result of serializing one instruction's operand atoms: their bytes and
the rest of the stream, a tag-mismatch error, or a Rust panic for atoms
missing past the end of the Vec. -/
inductive ArgsRes where
  | ok (bytes : List Nat) (rest : List Code)
  | err (msg : String)
  | crash (msg : String)
  deriving DecidableEq, Repr

/-- serializer.rs serialize, per-shape operand emission: the operand atoms
one opcode requires, checked against their expected tags and encoded
little-endian. -/
def serArgs (fmtF : Nat → String) : OpArgT → List Code → ArgsRes
  | .Nil, rest => .ok [] rest
  | .Reg, .Reg r :: rest2 => .ok [r] rest2
  | .Reg, c :: _ => .err (errFmt ("Expected a register, but got " ++ c.disp fmtF))
  | .Reg, [] => .crash oobMsg
  | .IntReg, .Int v :: .Reg r :: rest2 => .ok (i64LE v ++ [r]) rest2
  | .IntReg, .Int _ :: c :: _ =>
    .err (errFmt ("Expected a register, but got " ++ c.disp fmtF))
  | .IntReg, c :: _ =>
    .err (errFmt ("Expected an integer, but got " ++ c.disp fmtF))
  | .IntReg, [] => .crash oobMsg
  | .RegReg, .Reg r1 :: .Reg r2 :: rest2 => .ok [r1, r2] rest2
  | .RegReg, .Reg _ :: c :: _ =>
    .err (errFmt ("Expected a register, but got " ++ c.disp fmtF))
  | .RegReg, c :: _ =>
    .err (errFmt ("Expected a register, but got " ++ c.disp fmtF))
  | .RegReg, [] => .crash oobMsg
  | .Addr, .Addr a :: rest2 => .ok (natLE 8 a) rest2
  | .Addr, c :: _ =>
    .err (errFmt ("Expected an address, but got " ++ c.disp fmtF))
  | .Addr, [] => .crash oobMsg
  | .Int, .Int v :: rest2 => .ok (i64LE v) rest2
  | .Int, c :: _ =>
    .err (errFmt ("Expected an integer, but got " ++ c.disp fmtF))
  | .Int, [] => .crash oobMsg
  | .RealReg, .Real bits :: .Reg r :: rest2 => .ok (natLE 8 bits ++ [r]) rest2
  | .RealReg, .Real _ :: c :: _ =>
    .err (errFmt ("Expected a register, but got " ++ c.disp fmtF))
  | .RealReg, c :: _ =>
    .err (errFmt ("Expected a real, but got " ++ c.disp fmtF))
  | .RealReg, [] => .crash oobMsg

theorem serArgs_length (fmtF : Nat → String) (t : OpArgT)
    (rest rest2 : List Code) (bs : List Nat)
    (h : serArgs fmtF t rest = .ok bs rest2) : rest2.length ≤ rest.length := by
  unfold serArgs at h
  split at h <;> cases h <;> simp <;> omega

/-- serializer.rs serialize, the per-atom loop: walks the stream by whole
instructions per OP_ARG_TYPES, emitting the opcode tag byte and the
little-endian operand bytes.  A wrongly tagged atom is an error; an atom
missing entirely (code[idx + k] out of bounds) is a Rust panic. -/
def serializeAtoms (fmtF : Nat → String) : List Code → SerRes
  | [] => .ok []
  | .Op op :: rest =>
    match hs : serArgs fmtF (OP_ARG_TYPES op) rest with
    | .ok payload rest2 =>
      SerRes.pre (op.tag :: payload) (serializeAtoms fmtF rest2)
    | .err m => .err m
    | .crash m => .crash m
  | c :: _ => .err (errFmt ("Expected an opcode, but got " ++ c.disp fmtF))
termination_by code => code.length
decreasing_by
  simp only [List.length_cons]
  have := serArgs_length fmtF (OP_ARG_TYPES op) rest rest2 payload hs
  omega

theorem serializeAtoms_op (fmtF : Nat → String) (op : OpCode)
    (rest rest2 : List Code) (payload : List Nat)
    (h : serArgs fmtF (OP_ARG_TYPES op) rest = .ok payload rest2) :
    serializeAtoms fmtF (.Op op :: rest) =
      SerRes.pre (op.tag :: payload) (serializeAtoms fmtF rest2) := by
  rw [serializeAtoms]
  split <;> simp_all

/-- serializer.rs serialize: signature, version byte, then the atoms. -/
def serialize (fmtF : Nat → String) (code : List Code) : SerRes :=
  SerRes.pre (UVM_BINARY_SIGNATURE ++ [UVM_BINARY_VERSION])
    (serializeAtoms fmtF code)

/-- Result of deserialize: the stream, an error string, or a Rust panic
(out-of-bounds Vec index on an input truncated mid-instruction). -/
inductive DeserRes where
  | ok (code : List Code)
  | err (msg : String)
  | crash (msg : String)
  deriving DecidableEq, Repr

/-- Prefix atoms onto a deserializer result. -/
def DeserRes.pre (cs : List Code) : DeserRes → DeserRes
  | .ok rest => .ok (cs ++ rest)
  | .err m => .err m
  | .crash m => .crash m

/-- serializer.rs deserialize, the per-instruction loop after the header:
reads an opcode byte, then the operand bytes its shape demands, by direct
indexing — bytes missing past the end are a Rust panic, not an error. -/
def deserializeAtoms : List Nat → DeserRes
  | [] => .ok []
  | b :: rest =>
    match OpCode.ofTag b with
    | none => .err (errFmt ("Invalid opcode: " ++ toString b))
    | some op =>
      match OP_ARG_TYPES op with
      | .Nil => DeserRes.pre [.Op op] (deserializeAtoms rest)
      | .Reg =>
        match rest with
        | r :: rest2 => DeserRes.pre [.Op op, .Reg r] (deserializeAtoms rest2)
        | [] => .crash oobMsg
      | .IntReg =>
        match rest with
        | b1 :: b2 :: b3 :: b4 :: b5 :: b6 :: b7 :: b8 :: r :: rest2 =>
          DeserRes.pre [.Op op, .Int (decI64 (leVal [b1, b2, b3, b4, b5, b6, b7, b8])), .Reg r]
            (deserializeAtoms rest2)
        | _ => .crash oobMsg
      | .RegReg =>
        match rest with
        | r1 :: r2 :: rest2 =>
          DeserRes.pre [.Op op, .Reg r1, .Reg r2] (deserializeAtoms rest2)
        | _ => .crash oobMsg
      | .Addr =>
        match rest with
        | b1 :: b2 :: b3 :: b4 :: b5 :: b6 :: b7 :: b8 :: rest2 =>
          DeserRes.pre [.Op op, .Addr (leVal [b1, b2, b3, b4, b5, b6, b7, b8])]
            (deserializeAtoms rest2)
        | _ => .crash oobMsg
      | .Int =>
        match rest with
        | b1 :: b2 :: b3 :: b4 :: b5 :: b6 :: b7 :: b8 :: rest2 =>
          DeserRes.pre [.Op op, .Int (decI64 (leVal [b1, b2, b3, b4, b5, b6, b7, b8]))]
            (deserializeAtoms rest2)
        | _ => .crash oobMsg
      | .RealReg =>
        match rest with
        | b1 :: b2 :: b3 :: b4 :: b5 :: b6 :: b7 :: b8 :: r :: rest2 =>
          DeserRes.pre [.Op op, .Real (leVal [b1, b2, b3, b4, b5, b6, b7, b8]), .Reg r]
            (deserializeAtoms rest2)
        | _ => .crash oobMsg

/-- serializer.rs deserialize: header checks (length, signature, version),
then the atom loop. -/
def deserialize (binary : List Nat) : DeserRes :=
  if binary.length < UVM_BINARY_SIGNATURE.length + 1 then
    .err (errFmt ("Binary is too short to be a valid uvm binary (" ++
      toString binary.length ++ " bytes)"))
  else if binary.take 15 ≠ UVM_BINARY_SIGNATURE then
    .err "Binary signature is invalid, this is not a UVM binary"
  else if (binary.drop 15).take 1 ≠ [UVM_BINARY_VERSION] then
    .err (errFmt ("Binary version is invalid, written with " ++
      toString ((binary.drop 15).headD 0) ++ " but current version is " ++
      toString UVM_BINARY_VERSION))
  else
    deserializeAtoms (binary.drop 16)

/-- Shape well-formedness of an instruction stream: a concatenation of
whole instructions per OP_ARG_TYPES, with the payload ranges the Rust atom
types enforce (Reg: u8, Int: i64, Real: f64 bit pattern).  Addr payloads
(usize) are bounded separately, see addrLt. -/
inductive WFStream : List Code → Prop where
  | nil : WFStream []
  | nilOp (op : OpCode) (h : OP_ARG_TYPES op = .Nil) (rest : List Code) :
      WFStream rest → WFStream (.Op op :: rest)
  | reg (op : OpCode) (r : Nat) (h : OP_ARG_TYPES op = .Reg)
      (hr : r < 256) (rest : List Code) :
      WFStream rest → WFStream (.Op op :: .Reg r :: rest)
  | intReg (op : OpCode) (v : Int) (r : Nat) (h : OP_ARG_TYPES op = .IntReg)
      (hv1 : -(twoPow63 : Int) ≤ v) (hv2 : v < (twoPow63 : Int))
      (hr : r < 256) (rest : List Code) :
      WFStream rest → WFStream (.Op op :: .Int v :: .Reg r :: rest)
  | regReg (op : OpCode) (r1 r2 : Nat) (h : OP_ARG_TYPES op = .RegReg)
      (hr1 : r1 < 256) (hr2 : r2 < 256) (rest : List Code) :
      WFStream rest → WFStream (.Op op :: .Reg r1 :: .Reg r2 :: rest)
  | addr (op : OpCode) (a : Nat) (h : OP_ARG_TYPES op = .Addr)
      (rest : List Code) :
      WFStream rest → WFStream (.Op op :: .Addr a :: rest)
  | int (op : OpCode) (v : Int) (h : OP_ARG_TYPES op = .Int)
      (hv1 : -(twoPow63 : Int) ≤ v) (hv2 : v < (twoPow63 : Int))
      (rest : List Code) :
      WFStream rest → WFStream (.Op op :: .Int v :: rest)
  | realReg (op : OpCode) (bits r : Nat) (h : OP_ARG_TYPES op = .RealReg)
      (hb : bits < twoPow64) (hr : r < 256) (rest : List Code) :
      WFStream rest → WFStream (.Op op :: .Real bits :: .Reg r :: rest)

/-- All Addr payloads of the stream are below N (the Rust usize bound when
N = 2^64). -/
def addrLt (code : List Code) (N : Nat) : Prop :=
  ∀ a : Nat, Code.Addr a ∈ code → a < N

theorem deserAtoms_nil (op : OpCode) (h : OP_ARG_TYPES op = .Nil)
    (bs : List Nat) :
    deserializeAtoms (op.tag :: bs) =
      DeserRes.pre [.Op op] (deserializeAtoms bs) := by
  simp [deserializeAtoms, ofTag_tag, h]

theorem deserAtoms_reg (op : OpCode) (h : OP_ARG_TYPES op = .Reg)
    (r : Nat) (bs : List Nat) :
    deserializeAtoms (op.tag :: r :: bs) =
      DeserRes.pre [.Op op, .Reg r] (deserializeAtoms bs) := by
  simp [deserializeAtoms, ofTag_tag, h]

theorem deserAtoms_regReg (op : OpCode) (h : OP_ARG_TYPES op = .RegReg)
    (r1 r2 : Nat) (bs : List Nat) :
    deserializeAtoms (op.tag :: r1 :: r2 :: bs) =
      DeserRes.pre [.Op op, .Reg r1, .Reg r2] (deserializeAtoms bs) := by
  simp [deserializeAtoms, ofTag_tag, h]

theorem deserAtoms_intReg (op : OpCode) (h : OP_ARG_TYPES op = .IntReg)
    (n r : Nat) (bs : List Nat) :
    deserializeAtoms (op.tag :: natLE 8 n ++ r :: bs) =
      DeserRes.pre [.Op op, .Int (decI64 (leVal (natLE 8 n))), .Reg r]
        (deserializeAtoms bs) := by
  simp [natLE, deserializeAtoms, ofTag_tag, h, leVal]

theorem deserAtoms_int (op : OpCode) (h : OP_ARG_TYPES op = .Int)
    (n : Nat) (bs : List Nat) :
    deserializeAtoms (op.tag :: natLE 8 n ++ bs) =
      DeserRes.pre [.Op op, .Int (decI64 (leVal (natLE 8 n)))]
        (deserializeAtoms bs) := by
  simp [natLE, deserializeAtoms, ofTag_tag, h, leVal]

theorem deserAtoms_addr (op : OpCode) (h : OP_ARG_TYPES op = .Addr)
    (n : Nat) (bs : List Nat) :
    deserializeAtoms (op.tag :: natLE 8 n ++ bs) =
      DeserRes.pre [.Op op, .Addr (leVal (natLE 8 n))]
        (deserializeAtoms bs) := by
  simp [natLE, deserializeAtoms, ofTag_tag, h, leVal]

theorem deserAtoms_realReg (op : OpCode) (h : OP_ARG_TYPES op = .RealReg)
    (n r : Nat) (bs : List Nat) :
    deserializeAtoms (op.tag :: natLE 8 n ++ r :: bs) =
      DeserRes.pre [.Op op, .Real (leVal (natLE 8 n)), .Reg r]
        (deserializeAtoms bs) := by
  simp [natLE, deserializeAtoms, ofTag_tag, h, leVal]

theorem leVal_natLE8 (n : Nat) (h : n < twoPow64) : leVal (natLE 8 n) = n :=
  leVal_natLE 8 n (by unfold twoPow64 at h; norm_num; omega)

/-- Core round trip: a shape-well-formed stream with in-range addresses
serializes successfully and deserializes back to itself. -/
theorem roundtrip_atoms (fmtF : Nat → String) (code : List Code)
    (hwf : WFStream code) (haddr : addrLt code twoPow64) :
    ∃ bs, serializeAtoms fmtF code = .ok bs ∧
      deserializeAtoms bs = .ok code := by
  induction hwf with
  | nil => exact ⟨[], by simp [serializeAtoms], rfl⟩
  | nilOp op h rest _ ih =>
    obtain ⟨bs, h1, h2⟩ := ih (fun a ha => haddr a (by simp [ha]))
    refine ⟨op.tag :: bs, ?_, ?_⟩
    · rw [serializeAtoms_op fmtF op rest rest [] (by rw [h]; rfl), h1]; rfl
    · rw [deserAtoms_nil op h, h2]; rfl
  | reg op r h hr rest _ ih =>
    obtain ⟨bs, h1, h2⟩ := ih (fun a ha => haddr a (by simp [ha]))
    refine ⟨op.tag :: r :: bs, ?_, ?_⟩
    · rw [serializeAtoms_op fmtF op (.Reg r :: rest) rest [r] (by rw [h]; rfl),
        h1]
      rfl
    · rw [deserAtoms_reg op h, h2]; rfl
  | intReg op v r h hl hu hr rest _ ih =>
    obtain ⟨bs, h1, h2⟩ := ih (fun a ha => haddr a (by simp [ha]))
    refine ⟨op.tag :: (i64LE v ++ [r]) ++ bs, ?_, ?_⟩
    · rw [serializeAtoms_op fmtF op (.Int v :: .Reg r :: rest) rest
        (i64LE v ++ [r]) (by rw [h]; rfl), h1]
      rfl
    · have he : op.tag :: (i64LE v ++ [r]) ++ bs =
          op.tag :: natLE 8 (i2f v) ++ r :: bs := by simp [i64LE]
      rw [he, deserAtoms_intReg op h, leVal_natLE8 _ (i2f_lt v),
        decI64_i2f v hl hu, h2]
      rfl
  | regReg op r1 r2 h hr1 hr2 rest _ ih =>
    obtain ⟨bs, h1, h2⟩ := ih (fun a ha => haddr a (by simp [ha]))
    refine ⟨op.tag :: r1 :: r2 :: bs, ?_, ?_⟩
    · rw [serializeAtoms_op fmtF op (.Reg r1 :: .Reg r2 :: rest) rest
        [r1, r2] (by rw [h]; rfl), h1]
      rfl
    · rw [deserAtoms_regReg op h, h2]; rfl
  | addr op a h rest _ ih =>
    have ha : a < twoPow64 := haddr a (by simp)
    obtain ⟨bs, h1, h2⟩ := ih (fun x hx => haddr x (by simp [hx]))
    refine ⟨op.tag :: natLE 8 a ++ bs, ?_, ?_⟩
    · rw [serializeAtoms_op fmtF op (.Addr a :: rest) rest (natLE 8 a)
        (by rw [h]; rfl), h1]
      rfl
    · rw [deserAtoms_addr op h, leVal_natLE8 a ha, h2]; rfl
  | int op v h hl hu rest _ ih =>
    obtain ⟨bs, h1, h2⟩ := ih (fun x hx => haddr x (by simp [hx]))
    refine ⟨op.tag :: i64LE v ++ bs, ?_, ?_⟩
    · rw [serializeAtoms_op fmtF op (.Int v :: rest) rest (i64LE v)
        (by rw [h]; rfl), h1]
      rfl
    · have he : op.tag :: i64LE v ++ bs =
          op.tag :: natLE 8 (i2f v) ++ bs := by simp [i64LE]
      rw [he, deserAtoms_int op h, leVal_natLE8 _ (i2f_lt v),
        decI64_i2f v hl hu, h2]
      rfl
  | realReg op bits r h hb hr rest _ ih =>
    obtain ⟨bs, h1, h2⟩ := ih (fun x hx => haddr x (by simp [hx]))
    refine ⟨op.tag :: (natLE 8 bits ++ [r]) ++ bs, ?_, ?_⟩
    · rw [serializeAtoms_op fmtF op (.Real bits :: .Reg r :: rest) rest
        (natLE 8 bits ++ [r]) (by rw [h]; rfl), h1]
      rfl
    · have he : op.tag :: (natLE 8 bits ++ [r]) ++ bs =
          op.tag :: natLE 8 bits ++ r :: bs := by simp
      rw [he, deserAtoms_realReg op h, leVal_natLE8 bits hb, h2]
      rfl

theorem deserialize_header (body : List Nat) :
    deserialize ((UVM_BINARY_SIGNATURE ++ [UVM_BINARY_VERSION]) ++ body) =
      deserializeAtoms body := by
  unfold deserialize
  rw [List.append_assoc]
  rw [show (15 : Nat) = UVM_BINARY_SIGNATURE.length from rfl, List.take_left,
    List.drop_left]
  simp [UVM_BINARY_SIGNATURE, UVM_BINARY_VERSION, List.drop_append]

/-- Full round trip including the binary header. -/
theorem serialize_then_deserialize (fmtF : Nat → String) (code : List Code)
    (hwf : WFStream code) (haddr : addrLt code twoPow64) :
    ∃ bs, serialize fmtF code = .ok bs ∧ deserialize bs = .ok code := by
  obtain ⟨body, h1, h2⟩ := roundtrip_atoms fmtF code hwf haddr
  refine ⟨(UVM_BINARY_SIGNATURE ++ [UVM_BINARY_VERSION]) ++ body, ?_, ?_⟩
  · rw [serialize, h1]; rfl
  · rw [deserialize_header, h2]

/-! ## The assembler (parser.rs)

The parser works on the source text as a character list.  Tokens are
character lists; label names are character lists.  f64 literal parsing
(Rust f64::from_str, used only for RealReg operands) is a parameter
`fromStrF` producing the bit pattern of the parsed float, since no claim
depends on concrete float literals. -/

/-- Split a character list at every occurrence of `c` (Rust split). -/
def splitOnChar (c : Char) : List Char → List (List Char)
  | [] => [[]]
  | x :: xs =>
    if x = c then [] :: splitOnChar c xs
    else
      match splitOnChar c xs with
      | s :: rest => (x :: s) :: rest
      | [] => [[x]]

/-- Strip one trailing carriage return (what Rust lines() does per line). -/
def stripCR (l : List Char) : List Char :=
  match l.getLast? with
  | some '\r' => l.dropLast
  | _ => l

/-- Rust str::lines on the raw source.  (A source ending in a newline gets
one extra empty line here; it is blank and skipped by the line loop, so
parsing is unaffected.) -/
def rustLines (s : List Char) : List (List Char) :=
  (splitOnChar '\n' s).map stripCR

/-- parser.rs: line.splitn(2, "//").next() — everything before the first
comment marker. -/
def stripComment : List Char → List Char
  | '/' :: '/' :: _ => []
  | c :: rest => c :: stripComment rest
  | [] => []

/-- Rust str::trim. -/
def trimChars (l : List Char) : List Char :=
  ((l.dropWhile Char.isWhitespace).reverse.dropWhile Char.isWhitespace).reverse

/-- Whitespace tokenizer (Rust split_whitespace): first argument is the
current token reversed. -/
def splitWsAcc : List Char → List Char → List (List Char)
  | cur, [] => if cur.isEmpty then [] else [cur.reverse]
  | cur, c :: rest =>
    if c.isWhitespace then
      if cur.isEmpty then splitWsAcc [] rest
      else cur.reverse :: splitWsAcc [] rest
    else splitWsAcc (c :: cur) rest

/-- Rust split_whitespace. -/
def splitWs (l : List Char) : List (List Char) := splitWsAcc [] l

/-- Numeric value of a non-empty all-digit character list. -/
def digitsVal (l : List Char) : Option Nat :=
  l.foldl
    (fun acc c =>
      acc.bind fun n => if c.isDigit then some (n * 10 + (c.toNat - 48)) else none)
    (if l.isEmpty then none else some 0)

/-- Rust u8::from_str: optional leading plus sign, then decimal digits,
value at most 255. -/
def parseU8 (t : List Char) : Option Nat :=
  match t with
  | '+' :: rest => (digitsVal rest).bind fun n => if n ≤ 255 then some n else none
  | _ => (digitsVal t).bind fun n => if n ≤ 255 then some n else none

/-- Rust i64::from_str: optional sign, decimal digits, i64 range. -/
def parseI64 (t : List Char) : Option Int :=
  match t with
  | '+' :: rest =>
    (digitsVal rest).bind fun n =>
      if n ≤ twoPow63 - 1 then some (n : Int) else none
  | '-' :: rest =>
    (digitsVal rest).bind fun n =>
      if n ≤ twoPow63 then some (-(n : Int)) else none
  | _ =>
    (digitsVal t).bind fun n =>
      if n ≤ twoPow63 - 1 then some (n : Int) else none

/-- asm.rs OpCode::from_str (case-sensitive exact mnemonic match). -/
def opFromStr (t : List Char) : Option OpCode :=
  match (⟨t⟩ : String) with
  | "HALT" => some .HALT
  | "SET" => some .SET
  | "SETF" => some .SETF
  | "MOV" => some .MOV
  | "PUSH" => some .PUSH
  | "PUSHL" => some .PUSHL
  | "POP" => some .POP
  | "PUSHRF" => some .PUSHRF
  | "POPRF" => some .POPRF
  | "ADD" => some .ADD
  | "ADDL" => some .ADDL
  | "SUB" => some .SUB
  | "SUBL" => some .SUBL
  | "SUB2L" => some .SUB2L
  | "MUL" => some .MUL
  | "MULL" => some .MULL
  | "DIV" => some .DIV
  | "DIVL" => some .DIVL
  | "DIV2L" => some .DIV2L
  | "MOD" => some .MOD
  | "INC" => some .INC
  | "DEC" => some .DEC
  | "ADDF" => some .ADDF
  | "ADDFL" => some .ADDFL
  | "SUBF" => some .SUBF
  | "SUBFL" => some .SUBFL
  | "SUBF2L" => some .SUBF2L
  | "MULF" => some .MULF
  | "MULFL" => some .MULFL
  | "DIVF" => some .DIVF
  | "DIVFL" => some .DIVFL
  | "DIVF2L" => some .DIVF2L
  | "POW" => some .POW
  | "POW2" => some .POW2
  | "POWL" => some .POWL
  | "POW2L" => some .POW2L
  | "CEIL" => some .CEIL
  | "FLOR" => some .FLOR
  | "CMP" => some .CMP
  | "CMPL" => some .CMPL
  | "JMP" => some .JMP
  | "JEQ" => some .JEQ
  | "JLT" => some .JLT
  | "JLE" => some .JLE
  | "JGT" => some .JGT
  | "JGE" => some .JGE
  | "JNE" => some .JNE
  | "CALL" => some .CALL
  | "RET" => some .RET
  | "DBGREG" => some .DBGREG
  | "DBGREGF" => some .DBGREGF
  | "DBGREGS" => some .DBGREGS
  | _ => none

/-- parser.rs parse_string working state: the emitted code, the label map,
the recorded label references (position of the placeholder Addr atom and
the referenced name), and the current parent label. -/
structure PSt where
  code : List Code
  labels : List (List Char × Nat)
  label_refs : List (Nat × List Char)
  parent : List Char
  deriving DecidableEq, Repr

/-- HashMap<String, usize> lookup (the assoc list is only ever extended
after a contains_key check, so it has no duplicate keys). -/
def lookupLabel (ls : List (List Char × Nat)) (k : List Char) : Option Nat :=
  (ls.find? fun p => p.1 = k).map Prod.snd

/-- The `<filename>.<lineno>: ` error prefix of parser errors. -/
def posMsg (fname : String) (lineno : Nat) (rest : String) : String :=
  errFmt (fname ++ "." ++ toString lineno ++ ": " ++ rest)

/-- parser.rs consume_int on the token stream.  (The text Rust appends for
a ParseIntError is abbreviated to the failing token.) -/
def pConsumeInt (fname : String) (lineno : Nat) (op : OpCode) :
    List (List Char) → Except String (Int × List (List Char))
  | [] =>
    .error (posMsg fname lineno
      (op.toStr ++ " expected to find an integer but found nothing"))
  | t :: rest =>
    match parseI64 t with
    | some v => .ok (v, rest)
    | none =>
      .error (posMsg fname lineno
        (op.toStr ++ " expected to find an integer but got " ++ (⟨t⟩ : String)))

/-- parser.rs consume_reg on the token stream: the token must start with
the letter r; the remainder must parse as a u8.  There is no check against
NUM_REGISTERS here. -/
def pConsumeReg (fname : String) (lineno : Nat) (op : OpCode) :
    List (List Char) → Except String (Nat × List (List Char))
  | [] =>
    .error (posMsg fname lineno
      (op.toStr ++ " expected to find a register but found nothing"))
  | t :: rest =>
    if t.take 1 = ['r'] then
      match parseU8 (t.drop 1) with
      | some r => .ok (r, rest)
      | none =>
        .error (posMsg fname lineno
          (op.toStr ++ " expected to find a register but got " ++ (⟨t⟩ : String)))
    else
      .error (posMsg fname lineno
        (op.toStr ++ " expected to find a register but got " ++ (⟨t⟩ : String)))

/-- parser.rs consume_real on the token stream, with f64::from_str as the
parameter fromStrF giving the bit pattern of the parsed float. -/
def pConsumeReal (fromStrF : List Char → Option Nat) (fname : String)
    (lineno : Nat) (op : OpCode) :
    List (List Char) → Except String (Nat × List (List Char))
  | [] =>
    .error (posMsg fname lineno
      (op.toStr ++ " expected to find a real but found nothing"))
  | t :: rest =>
    match fromStrF t with
    | some bits => .ok (bits, rest)
    | none =>
      .error (posMsg fname lineno
        (op.toStr ++ " expected to find a real but got " ++ (⟨t⟩ : String)))

/-- parser.rs validate_line_is_over. -/
def pLineOver (fname : String) (lineno : Nat) (op : OpCode) :
    List (List Char) → Except String Unit
  | [] => .ok ()
  | t :: _ =>
    .error (posMsg fname lineno
      (op.toStr ++ " expected to find end of line but got " ++ (⟨t⟩ : String)))

/-- parser.rs parse_string, the body of the per-line loop: comment
stripping, trimming, label declarations, and instruction emission per the
operand-shape table.  Note the Addr arm records a label reference at
code.len() + 1 and emits a placeholder Addr 0 — and performs no
end-of-line check (faithful to the source). -/
def doLine (fromStrF : List Char → Option Nat) (fname : String) (st : PSt)
    (lineno : Nat) (rawLine : List Char) : Except String PSt :=
  let line := trimChars (stripComment rawLine)
  if line.isEmpty then .ok st
  else
    match splitWs line with
    | [] => .ok st
    | raw_op :: parts =>
      if raw_op.getLast? = some ':' then
        if raw_op.take 1 = ['.'] then
          let label := st.parent ++ '>' :: (raw_op.drop 1).dropLast
          if (lookupLabel st.labels label).isSome then
            .error (posMsg fname lineno
              ("Sublabel " ++ (⟨label⟩ : String) ++ " already defined"))
          else
            .ok { st with labels := (label, st.code.length) :: st.labels }
        else
          let label := raw_op.dropLast
          if (lookupLabel st.labels label).isSome then
            .error (posMsg fname lineno
              ("Label " ++ (⟨label⟩ : String) ++ " already defined"))
          else
            .ok { st with labels := (label, st.code.length) :: st.labels,
                          parent := label }
      else
        match opFromStr raw_op with
        | none =>
          .error (posMsg fname lineno
            ("Expected to find an OpCode but found " ++ (⟨raw_op⟩ : String)))
        | some op =>
          match OP_ARG_TYPES op with
          | .Nil => do
            let _ ← pLineOver fname lineno op parts
            .ok { st with code := st.code ++ [.Op op] }
          | .Reg => do
            let (r, parts2) ← pConsumeReg fname lineno op parts
            let _ ← pLineOver fname lineno op parts2
            .ok { st with code := st.code ++ [.Op op, .Reg r] }
          | .IntReg => do
            let (v, parts2) ← pConsumeInt fname lineno op parts
            let (r, parts3) ← pConsumeReg fname lineno op parts2
            let _ ← pLineOver fname lineno op parts3
            .ok { st with code := st.code ++ [.Op op, .Int v, .Reg r] }
          | .RegReg => do
            let (r1, parts2) ← pConsumeReg fname lineno op parts
            let (r2, parts3) ← pConsumeReg fname lineno op parts2
            let _ ← pLineOver fname lineno op parts3
            .ok { st with code := st.code ++ [.Op op, .Reg r1, .Reg r2] }
          | .Addr =>
            match parts with
            | [] =>
              .error (posMsg fname lineno
                (op.toStr ++ " expected to find a label but found nothing"))
            | t :: _ =>
              let label :=
                if t.take 1 = ['.'] then st.parent ++ '>' :: t.drop 1 else t
              .ok { st with
                    label_refs := (st.code.length + 1, label) :: st.label_refs,
                    code := st.code ++ [.Op op, .Addr 0] }
          | .Int => do
            let (v, parts2) ← pConsumeInt fname lineno op parts
            let _ ← pLineOver fname lineno op parts2
            .ok { st with code := st.code ++ [.Op op, .Int v] }
          | .RealReg => do
            let (bits, parts2) ← pConsumeReal fromStrF fname lineno op parts
            let (r, parts3) ← pConsumeReg fname lineno op parts2
            let _ ← pLineOver fname lineno op parts3
            .ok { st with code := st.code ++ [.Op op, .Real bits, .Reg r] }

/-- The per-line loop of parse_string (lineno is incremented before each
line, so lines are 1-based). -/
def doLines (fromStrF : List Char → Option Nat) (fname : String) :
    PSt → Nat → List (List Char) → Except String PSt
  | st, _, [] => .ok st
  | st, n, l :: ls =>
    match doLine fromStrF fname st (n + 1) l with
    | .ok st2 => doLines fromStrF fname st2 (n + 1) ls
    | .error e => .error e

/-- parser.rs parse_string, the label-substitution pass: each recorded
reference is rewritten to the referenced label address; an undefined label
is an error.  (The Rust HashMap iteration order is immaterial: the
positions are pairwise distinct and each substitution touches only its own
position.) -/
def substRefs (labels : List (List Char × Nat)) :
    List (Nat × List Char) → List Code → Except String (List Code)
  | [], code => .ok code
  | (p, l) :: rs, code =>
    match lookupLabel labels l with
    | none =>
      .error (errFmt ("Reference to label " ++ (⟨l⟩ : String) ++ " at addr " ++
        toString p ++ " found but it is not defined"))
    | some a => substRefs labels rs (code.set p (.Addr a))

/-- parser.rs parse_string. -/
def parse_string (fromStrF : List Char → Option Nat) (raw : String)
    (fname : String) : Except String (List Code) :=
  match doLines fromStrF fname
      ⟨[], [], [], "__beggining_of_program__".data⟩ 0 (rustLines raw.data) with
  | .error e => .error e
  | .ok st => substRefs st.labels st.label_refs st.code

/-! ## The interpreter (vm.rs) -/

def NUM_REGISTERS : Nat := 16
def STACK_SIZE : Nat := 8192
def CALL_STACK_SIZE : Nat := 1024

/-- The IEEE-754 binary64 operations the interpreter uses, on 64-bit
patterns, kept abstract (no claim depends on a concrete float result):
fadd/fsub/fmul/fdivOp are +,-,*,/; powf is Rust f64::powf (base first);
ceil and floor are the f64 rounding followed by the saturating `as i64`
cast; inRange is the CEIL/FLOR bound check
!(val > i64::MAX as f64 || val < i64::MIN as f64); fmt is the f64 Display. -/
structure FloatOps where
  fmt : Nat → String
  fadd : Nat → Nat → Nat
  fsub : Nat → Nat → Nat
  fmul : Nat → Nat → Nat
  fdivOp : Nat → Nat → Nat
  powf : Nat → Nat → Nat
  ceil : Nat → Int
  floor : Nat → Int
  inRange : Nat → Bool

/-- vm.rs VM state.  Arrays are modelled as functions (regs and stack out
of their index ranges are never read by the checked code paths). -/
structure VM where
  regs : Nat → Int
  stack : Nat → Int
  call_stack : Nat → Nat
  code : List Code
  pc : Nat
  sp : Nat
  csp : Nat
  cmp : Int
  capture_output : Bool

/-- Pointwise array update. -/
def upd {α : Type} (f : Nat → α) (i : Nat) (v : α) : Nat → α :=
  fun j => if j = i then v else f j

/-- vm.rs VM::new: zero-initialized state over the given code. -/
def VM.new (code : List Code) : VM :=
  ⟨fun _ => 0, fun _ => 0, fun _ => 0, code, 0, 0, 0, 0, false⟩

/-- vm.rs VM::capture_output. -/
def VM.capture (s : VM) : VM := { s with capture_output := true }

/-- Result of a fallible VM operation: success and error carry the state as
mutated so far (the Rust methods take &mut self); crash is a Rust panic. -/
inductive Res (α : Type) where
  | ok (a : α) (s : VM)
  | err (msg : String) (s : VM)
  | crash (msg : String)

def Res.bind {α β : Type} : Res α → (α → VM → Res β) → Res β
  | .ok a s, f => f a s
  | .err m s, _ => .err m s
  | .crash m, _ => .crash m

/-- The Rust Vec index-out-of-bounds panic message. -/
def oobIdx (len i : Nat) : String :=
  "index out of bounds: the len is " ++ toString len ++
    " but the index is " ++ toString i

/-- vm.rs VM::consume_op: the unchecked self.code[self.pc] index panics
past the end; a non-opcode atom is an error; otherwise advance pc. -/
def consume_op (F : FloatOps) (s : VM) : Res OpCode :=
  match s.code.get? s.pc with
  | none => .crash (oobIdx s.code.length s.pc)
  | some (.Op op) => .ok op { s with pc := s.pc + 1 }
  | some c =>
    .err (errFmt ("Expected an opcode, but got " ++ c.disp F.fmt ++
      " at " ++ toString s.pc)) s

/-- vm.rs VM::consume_reg: additionally enforces the register index bound
(before advancing pc). -/
def consume_reg (F : FloatOps) (s : VM) : Res Nat :=
  match s.code.get? s.pc with
  | none => .crash (oobIdx s.code.length s.pc)
  | some (.Reg r) =>
    if NUM_REGISTERS ≤ r then
      .err (errFmt ("Register " ++ toString r ++ " out of bounds (>" ++
        toString (NUM_REGISTERS - 1) ++ ")")) s
    else .ok r { s with pc := s.pc + 1 }
  | some c =>
    .err (errFmt ("Expected a register, but got " ++ c.disp F.fmt ++
      " at " ++ toString s.pc)) s

/-- vm.rs VM::consume_int. -/
def consume_int (F : FloatOps) (s : VM) : Res Int :=
  match s.code.get? s.pc with
  | none => .crash (oobIdx s.code.length s.pc)
  | some (.Int v) => .ok v { s with pc := s.pc + 1 }
  | some c =>
    .err (errFmt ("Expected an integer, but got " ++ c.disp F.fmt ++
      " at " ++ toString s.pc)) s

/-- vm.rs VM::consume_addr. -/
def consume_addr (F : FloatOps) (s : VM) : Res Nat :=
  match s.code.get? s.pc with
  | none => .crash (oobIdx s.code.length s.pc)
  | some (.Addr a) => .ok a { s with pc := s.pc + 1 }
  | some c =>
    .err (errFmt ("Expected an address, but got " ++ c.disp F.fmt ++
      " at " ++ toString s.pc)) s

/-- vm.rs VM::consume_real (the value is the f64 bit pattern). -/
def consume_real (F : FloatOps) (s : VM) : Res Nat :=
  match s.code.get? s.pc with
  | none => .crash (oobIdx s.code.length s.pc)
  | some (.Real bits) => .ok bits { s with pc := s.pc + 1 }
  | some c =>
    .err (errFmt ("Expected a real, but got " ++ c.disp F.fmt ++
      " at " ++ toString s.pc)) s

/-- Write one register. -/
def VM.setReg (s : VM) (i : Nat) (v : Int) : VM :=
  { s with regs := upd s.regs i v }

/-- The three-way comparison written in the CMP/CMPL arms:
Ordering::Less to -1, Equal to 0, Greater to +1. -/
def cmp3 (x y : Int) : Int := if x < y then -1 else if x = y then 0 else 1

/-- The PUSHRF loop: push regs[0..k) in ascending index order. -/
def pushFrame (s : VM) : Nat → VM
  | 0 => s
  | k + 1 =>
    let s1 := pushFrame s k
    { s1 with stack := upd s1.stack s1.sp (s1.regs k), sp := s1.sp + 1 }

/-- The POPRF loop: pop into regs[0..k) from the highest index down. -/
def popFrame (s : VM) : Nat → VM
  | 0 => s
  | k + 1 =>
    popFrame
      { s with sp := s.sp - 1, regs := upd s.regs k (s.stack (s.sp - 1)) } k

/-- Rust Debug format of the register array, regs = [v0, v1, ...]. -/
def regsDump (regs : Nat → Int) : String :=
  "[" ++ String.intercalate ", "
    ((List.range NUM_REGISTERS).map fun i => toString (regs i)) ++ "]"

/-- The i64 minimum, for the division-overflow panics. -/
def i64Min : Int := -(twoPow63 : Int)

/-- vm.rs VM::step.  Returns (continue_running, output) and the state; Rust
panics (unchecked code index, native division by zero or overflow) are
crash results.  i64 add/sub/mul wrap (release semantics, spec section 9);
division results are in range whenever the operands are, so they are
stored unwrapped, as in the source. -/
def step (F : FloatOps) (s : VM) : Res (Bool × Option String) :=
  (consume_op F s).bind fun op s0 =>
    match op with
    | .HALT => .ok (false, none) s0
    | .SET =>
      (consume_int F s0).bind fun v s1 =>
        (consume_reg F s1).bind fun r s2 =>
          .ok (true, none) (s2.setReg r v)
    | .SETF =>
      (consume_real F s0).bind fun bits s1 =>
        (consume_reg F s1).bind fun r s2 =>
          .ok (true, none) (s2.setReg r (f2i bits))
    | .MOV =>
      (consume_reg F s0).bind fun r0 s1 =>
        (consume_reg F s1).bind fun r1 s2 =>
          .ok (true, none) (s2.setReg r1 (s2.regs r0))
    | .PUSH =>
      (consume_reg F s0).bind fun r s1 =>
        if STACK_SIZE ≤ s1.sp then .err (errFmt "Stack overflow") s1
        else
          .ok (true, none)
            { s1 with stack := upd s1.stack s1.sp (s1.regs r),
                      sp := s1.sp + 1 }
    | .PUSHL =>
      (consume_int F s0).bind fun v s1 =>
        if STACK_SIZE ≤ s1.sp then .err (errFmt "Stack overflow") s1
        else
          .ok (true, none)
            { s1 with stack := upd s1.stack s1.sp v, sp := s1.sp + 1 }
    | .POP =>
      (consume_reg F s0).bind fun r s1 =>
        if s1.sp = 0 then .err (errFmt "Stack underflow") s1
        else
          .ok (true, none)
            { s1 with sp := s1.sp - 1,
                      regs := upd s1.regs r (s1.stack (s1.sp - 1)) }
    | .PUSHRF =>
      (consume_int F s0).bind fun v s1 =>
        if v < 1 ∨ (NUM_REGISTERS : Int) ≤ v then
          .err (errFmt ("PUSHRF received a register frame size of " ++
            toString v ++ " out of bounds")) s1
        else if STACK_SIZE ≤ s1.sp + v.toNat then
          .err (errFmt ("PUSHRF " ++ toString v.toNat ++ ": stack overflow")) s1
        else .ok (true, none) (pushFrame s1 v.toNat)
    | .POPRF =>
      (consume_int F s0).bind fun v s1 =>
        if v < 1 ∨ (NUM_REGISTERS : Int) ≤ v then
          .err (errFmt ("POPRF received a register frame size of " ++
            toString v ++ " out of bounds")) s1
        else if s1.sp < v.toNat then
          .err (errFmt ("POPRF " ++ toString v.toNat ++ ": stack underflow")) s1
        else .ok (true, none) (popFrame s1 v.toNat)
    | .ADD =>
      (consume_reg F s0).bind fun r0 s1 =>
        (consume_reg F s1).bind fun r1 s2 =>
          .ok (true, none) (s2.setReg r1 (wrap64 (s2.regs r1 + s2.regs r0)))
    | .ADDL =>
      (consume_int F s0).bind fun v s1 =>
        (consume_reg F s1).bind fun r s2 =>
          .ok (true, none) (s2.setReg r (wrap64 (s2.regs r + v)))
    | .SUB =>
      (consume_reg F s0).bind fun r0 s1 =>
        (consume_reg F s1).bind fun r1 s2 =>
          .ok (true, none) (s2.setReg r1 (wrap64 (s2.regs r1 - s2.regs r0)))
    | .SUBL =>
      (consume_int F s0).bind fun v s1 =>
        (consume_reg F s1).bind fun r s2 =>
          .ok (true, none) (s2.setReg r (wrap64 (s2.regs r - v)))
    | .SUB2L =>
      (consume_int F s0).bind fun v s1 =>
        (consume_reg F s1).bind fun r s2 =>
          .ok (true, none) (s2.setReg r (wrap64 (v - s2.regs r)))
    | .MUL =>
      (consume_reg F s0).bind fun r0 s1 =>
        (consume_reg F s1).bind fun r1 s2 =>
          .ok (true, none) (s2.setReg r1 (wrap64 (s2.regs r1 * s2.regs r0)))
    | .MULL =>
      (consume_int F s0).bind fun v s1 =>
        (consume_reg F s1).bind fun r s2 =>
          .ok (true, none) (s2.setReg r (wrap64 (s2.regs r * v)))
    | .DIV =>
      (consume_reg F s0).bind fun r0 s1 =>
        (consume_reg F s1).bind fun r1 s2 =>
          if s2.regs r0 = 0 then .crash "attempt to divide by zero"
          else if s2.regs r1 = i64Min ∧ s2.regs r0 = -1 then
            .crash "attempt to divide with overflow"
          else .ok (true, none) (s2.setReg r1 (Int.tdiv (s2.regs r1) (s2.regs r0)))
    | .DIVL =>
      (consume_int F s0).bind fun v s1 =>
        (consume_reg F s1).bind fun r s2 =>
          if v = 0 then .crash "attempt to divide by zero"
          else if s2.regs r = i64Min ∧ v = -1 then
            .crash "attempt to divide with overflow"
          else .ok (true, none) (s2.setReg r (Int.tdiv (s2.regs r) v))
    | .DIV2L =>
      (consume_int F s0).bind fun v s1 =>
        (consume_reg F s1).bind fun r s2 =>
          if s2.regs r = 0 then .crash "attempt to divide by zero"
          else if v = i64Min ∧ s2.regs r = -1 then
            .crash "attempt to divide with overflow"
          else .ok (true, none) (s2.setReg r (Int.tdiv v (s2.regs r)))
    | .MOD =>
      (consume_reg F s0).bind fun r0 s1 =>
        (consume_reg F s1).bind fun r1 s2 =>
          if s2.regs r0 = 0 then
            .crash "attempt to calculate the remainder with a divisor of zero"
          else if s2.regs r1 = i64Min ∧ s2.regs r0 = -1 then
            .crash "attempt to calculate the remainder with overflow"
          else .ok (true, none) (s2.setReg r1 (Int.tmod (s2.regs r1) (s2.regs r0)))
    | .INC =>
      (consume_reg F s0).bind fun r s1 =>
        .ok (true, none) (s1.setReg r (wrap64 (s1.regs r + 1)))
    | .DEC =>
      (consume_reg F s0).bind fun r s1 =>
        .ok (true, none) (s1.setReg r (wrap64 (s1.regs r - 1)))
    | .ADDF =>
      (consume_reg F s0).bind fun r0 s1 =>
        (consume_reg F s1).bind fun r1 s2 =>
          .ok (true, none)
            (s2.setReg r1 (f2i (F.fadd (i2f (s2.regs r0)) (i2f (s2.regs r1)))))
    | .ADDFL =>
      (consume_real F s0).bind fun bits s1 =>
        (consume_reg F s1).bind fun r s2 =>
          .ok (true, none) (s2.setReg r (f2i (F.fadd bits (i2f (s2.regs r)))))
    | .SUBF =>
      (consume_reg F s0).bind fun r0 s1 =>
        (consume_reg F s1).bind fun r1 s2 =>
          .ok (true, none)
            (s2.setReg r1 (f2i (F.fsub (i2f (s2.regs r1)) (i2f (s2.regs r0)))))
    | .SUBFL =>
      (consume_real F s0).bind fun bits s1 =>
        (consume_reg F s1).bind fun r s2 =>
          .ok (true, none) (s2.setReg r (f2i (F.fsub (i2f (s2.regs r)) bits)))
    | .SUBF2L =>
      (consume_real F s0).bind fun bits s1 =>
        (consume_reg F s1).bind fun r s2 =>
          .ok (true, none) (s2.setReg r (f2i (F.fsub bits (i2f (s2.regs r)))))
    | .MULF =>
      (consume_reg F s0).bind fun r0 s1 =>
        (consume_reg F s1).bind fun r1 s2 =>
          .ok (true, none)
            (s2.setReg r1 (f2i (F.fmul (i2f (s2.regs r0)) (i2f (s2.regs r1)))))
    | .MULFL =>
      (consume_real F s0).bind fun bits s1 =>
        (consume_reg F s1).bind fun r s2 =>
          .ok (true, none) (s2.setReg r (f2i (F.fmul bits (i2f (s2.regs r)))))
    | .DIVF =>
      (consume_reg F s0).bind fun r0 s1 =>
        (consume_reg F s1).bind fun r1 s2 =>
          .ok (true, none)
            (s2.setReg r1 (f2i (F.fdivOp (i2f (s2.regs r1)) (i2f (s2.regs r0)))))
    | .DIVFL =>
      (consume_real F s0).bind fun bits s1 =>
        (consume_reg F s1).bind fun r s2 =>
          .ok (true, none) (s2.setReg r (f2i (F.fdivOp (i2f (s2.regs r)) bits)))
    | .DIVF2L =>
      (consume_real F s0).bind fun bits s1 =>
        (consume_reg F s1).bind fun r s2 =>
          .ok (true, none) (s2.setReg r (f2i (F.fdivOp bits (i2f (s2.regs r)))))
    | .POW =>
      (consume_reg F s0).bind fun r0 s1 =>
        (consume_reg F s1).bind fun r1 s2 =>
          .ok (true, none)
            (s2.setReg r1 (f2i (F.powf (i2f (s2.regs r1)) (i2f (s2.regs r0)))))
    | .POW2 =>
      (consume_reg F s0).bind fun r0 s1 =>
        (consume_reg F s1).bind fun r1 s2 =>
          .ok (true, none)
            (s2.setReg r1 (f2i (F.powf (i2f (s2.regs r0)) (i2f (s2.regs r1)))))
    | .POWL =>
      (consume_real F s0).bind fun bits s1 =>
        (consume_reg F s1).bind fun r0 s2 =>
          .ok (true, none) (s2.setReg r0 (f2i (F.powf (i2f (s2.regs r0)) bits)))
    | .POW2L =>
      (consume_real F s0).bind fun bits s1 =>
        (consume_reg F s1).bind fun r0 s2 =>
          .ok (true, none) (s2.setReg r0 (f2i (F.powf bits (i2f (s2.regs r0)))))
    | .CEIL =>
      (consume_reg F s0).bind fun r s1 =>
        if F.inRange (i2f (s1.regs r)) = false then
          .err (errFmt "CEIL overflow") s1
        else .ok (true, none) (s1.setReg r (F.ceil (i2f (s1.regs r))))
    | .FLOR =>
      (consume_reg F s0).bind fun r s1 =>
        if F.inRange (i2f (s1.regs r)) = false then
          .err (errFmt "FLOR overflow") s1
        else .ok (true, none) (s1.setReg r (F.floor (i2f (s1.regs r))))
    | .CMP =>
      (consume_reg F s0).bind fun r0 s1 =>
        (consume_reg F s1).bind fun r1 s2 =>
          .ok (true, none) { s2 with cmp := cmp3 (s2.regs r1) (s2.regs r0) }
    | .CMPL =>
      (consume_int F s0).bind fun v s1 =>
        (consume_reg F s1).bind fun r s2 =>
          .ok (true, none) { s2 with cmp := cmp3 (s2.regs r) v }
    | .JMP =>
      (consume_addr F s0).bind fun a s1 => .ok (true, none) { s1 with pc := a }
    | .JEQ =>
      (consume_addr F s0).bind fun a s1 =>
        .ok (true, none) (if s1.cmp = 0 then { s1 with pc := a } else s1)
    | .JLT =>
      (consume_addr F s0).bind fun a s1 =>
        .ok (true, none) (if s1.cmp = -1 then { s1 with pc := a } else s1)
    | .JLE =>
      (consume_addr F s0).bind fun a s1 =>
        .ok (true, none) (if s1.cmp ≤ 0 then { s1 with pc := a } else s1)
    | .JGT =>
      (consume_addr F s0).bind fun a s1 =>
        .ok (true, none) (if s1.cmp = 1 then { s1 with pc := a } else s1)
    | .JGE =>
      (consume_addr F s0).bind fun a s1 =>
        .ok (true, none) (if 0 ≤ s1.cmp then { s1 with pc := a } else s1)
    | .JNE =>
      (consume_addr F s0).bind fun a s1 =>
        .ok (true, none) (if s1.cmp ≠ 0 then { s1 with pc := a } else s1)
    | .CALL =>
      (consume_addr F s0).bind fun a s1 =>
        if CALL_STACK_SIZE ≤ s1.csp then .err (errFmt "Call stack overflow") s1
        else
          .ok (true, none)
            { s1 with call_stack := upd s1.call_stack s1.csp s1.pc,
                      csp := s1.csp + 1, pc := a }
    | .RET =>
      if s0.csp = 0 then .err (errFmt "Call stack underflow") s0
      else
        .ok (true, none)
          { s0 with csp := s0.csp - 1, pc := s0.call_stack (s0.csp - 1) }
    | .DBGREG =>
      (consume_reg F s0).bind fun r s1 =>
        .ok (true, some (dbgFmt ("r" ++ toString r ++ " = " ++
          toString (s1.regs r)))) s1
    | .DBGREGF =>
      (consume_reg F s0).bind fun r s1 =>
        .ok (true, some (dbgFmt ("r" ++ toString r ++ " = " ++
          F.fmt (i2f (s1.regs r))))) s1
    | .DBGREGS =>
      .ok (true, some (dbgFmt ("regs = " ++ regsDump s0.regs))) s0

/-- Result of the vm.rs run loop (more = the Lean fuel ran out while the
Rust loop would keep going). -/
inductive RunRes where
  | ok (out : String) (s : VM)
  | err (msg : String) (s : VM)
  | crash (msg : String)
  | more (s : VM)

/-- vm.rs VM::run: repeated step; debug output is appended to the captured
buffer with a newline in capture mode (in immediate mode it goes to stdout,
which the model does not track); stops on HALT or error.  Fuel bounds the
iteration count. -/
def runLoop (F : FloatOps) : Nat → VM → String → RunRes
  | 0, s, _ => .more s
  | fuel + 1, s, acc =>
    match step F s with
    | .ok (cont, out) s2 =>
      let acc2 :=
        match out with
        | some o => if s2.capture_output then acc ++ o ++ "\n" else acc
        | none => acc
      if cont then runLoop F fuel s2 acc2 else .ok acc2 s2
    | .err m s2 => .err m s2
    | .crash m => .crash m

/-- vm.rs VM::run from an empty captured buffer. -/
def VM.run (F : FloatOps) (fuel : Nat) (s : VM) : RunRes := runLoop F fuel s ""

/-- A concrete FloatOps instantiation, usable for programs whose behavior
does not depend on float semantics (every theorem below that involves
floats is quantified over all FloatOps). -/
def F0 : FloatOps :=
  ⟨fun _ => "", fun _ _ => 0, fun _ _ => 0, fun _ _ => 0, fun _ _ => 0,
   fun _ _ => 0, fun _ => 0, fun _ => 0, fun _ => true⟩

/-! ### Characterizations of the operand-consumption helpers -/

theorem consume_op_cmp {F : FloatOps} {s s1 : VM} {op : OpCode}
    (h : consume_op F s = .ok op s1) : s1.cmp = s.cmp := by
  unfold consume_op at h
  split at h
  · cases h
  · cases h; rfl
  · cases h

theorem consume_reg_cmp {F : FloatOps} {s s1 : VM} {r : Nat}
    (h : consume_reg F s = .ok r s1) : s1.cmp = s.cmp := by
  unfold consume_reg at h
  split at h
  · cases h
  · split at h
    · cases h
    · cases h; rfl
  · cases h

theorem consume_int_cmp {F : FloatOps} {s s1 : VM} {v : Int}
    (h : consume_int F s = .ok v s1) : s1.cmp = s.cmp := by
  unfold consume_int at h
  split at h
  · cases h
  · cases h; rfl
  · cases h

theorem consume_addr_cmp {F : FloatOps} {s s1 : VM} {a : Nat}
    (h : consume_addr F s = .ok a s1) : s1.cmp = s.cmp := by
  unfold consume_addr at h
  split at h
  · cases h
  · cases h; rfl
  · cases h

theorem consume_real_cmp {F : FloatOps} {s s1 : VM} {bits : Nat}
    (h : consume_real F s = .ok bits s1) : s1.cmp = s.cmp := by
  unfold consume_real at h
  split at h
  · cases h
  · cases h; rfl
  · cases h

theorem cmp3_range (x y : Int) : cmp3 x y = -1 ∨ cmp3 x y = 0 ∨ cmp3 x y = 1 := by
  unfold cmp3
  split_ifs <;> simp

theorem pushFrame_cmp (s : VM) (k : Nat) : (pushFrame s k).cmp = s.cmp := by
  induction k with
  | zero => rfl
  | succ k ih => simp [pushFrame, ih]

theorem popFrame_cmp (s : VM) (k : Nat) : (popFrame s k).cmp = s.cmp := by
  induction k generalizing s with
  | zero => rfl
  | succ k ih => simp [popFrame, ih]

theorem Res.bind_ok {α β : Type} (a : α) (s : VM) (f : α → VM → Res β) :
    (Res.ok a s).bind f = f a s := rfl

theorem Res.bind_err {α β : Type} (m : String) (s : VM) (f : α → VM → Res β) :
    (Res.err m s).bind f = .err m s := rfl

theorem Res.bind_crash {α β : Type} (m : String) (f : α → VM → Res β) :
    (Res.crash m : Res α).bind f = .crash m := rfl

/-- Inversion for a successful bind: the first action succeeded and the
continuation ran from its result state. -/
theorem bind_ok_elim {α β : Type} {x : Res α} {f : α → VM → Res β} {b : β}
    {sf : VM} (h : x.bind f = .ok b sf) :
    ∃ a sm, x = .ok a sm ∧ f a sm = .ok b sf := by
  cases x with
  | ok a sm => exact ⟨a, sm, rfl, h⟩
  | err m s2 => simp [Res.bind] at h
  | crash m => simp [Res.bind] at h

/-- Every successful step leaves cmp unchanged or sets it to a sign value
(only CMP/CMPL write cmp, and they write a sign). -/
theorem step_cmp_preserved {F : FloatOps} {s s1 : VM} {c : Bool}
    {o : Option String} (h : step F s = .ok (c, o) s1) :
    s1.cmp = s.cmp ∨ s1.cmp = -1 ∨ s1.cmp = 0 ∨ s1.cmp = 1 := by
  unfold step at h
  cases hop : consume_op F s with
  | err m s2 => rw [hop] at h; simp only [Res.bind_err] at h; cases h
  | crash m => rw [hop] at h; simp only [Res.bind_crash] at h; cases h
  | ok op s0 =>
    rw [hop] at h
    simp only [Res.bind_ok] at h
    have hc0 : s0.cmp = s.cmp := consume_op_cmp hop
    cases op with
    | HALT =>
      cases h
      exact Or.inl hc0
    | SET =>
      obtain ⟨_, _, hA, h⟩ := bind_ok_elim h
      obtain ⟨_, _, hB, h⟩ := bind_ok_elim h
      cases h
      have e1 := consume_int_cmp hA
      have e2 := consume_reg_cmp hB
      simp_all [VM.setReg]
    | SETF =>
      obtain ⟨_, _, hA, h⟩ := bind_ok_elim h
      obtain ⟨_, _, hB, h⟩ := bind_ok_elim h
      cases h
      have e1 := consume_real_cmp hA
      have e2 := consume_reg_cmp hB
      simp_all [VM.setReg]
    | MOV =>
      obtain ⟨_, _, hA, h⟩ := bind_ok_elim h
      obtain ⟨_, _, hB, h⟩ := bind_ok_elim h
      cases h
      have e1 := consume_reg_cmp hA
      have e2 := consume_reg_cmp hB
      simp_all [VM.setReg]
    | PUSH =>
      obtain ⟨_, _, hA, h⟩ := bind_ok_elim h
      have e1 := consume_reg_cmp hA
      split at h
      · cases h
      · cases h
        simp_all [VM.setReg]
    | PUSHL =>
      obtain ⟨_, _, hA, h⟩ := bind_ok_elim h
      have e1 := consume_int_cmp hA
      split at h
      · cases h
      · cases h
        simp_all [VM.setReg]
    | POP =>
      obtain ⟨_, _, hA, h⟩ := bind_ok_elim h
      have e1 := consume_reg_cmp hA
      split at h
      · cases h
      · cases h
        simp_all [VM.setReg]
    | PUSHRF =>
      obtain ⟨_, _, hA, h⟩ := bind_ok_elim h
      have e1 := consume_int_cmp hA
      split at h
      · cases h
      · split at h
        · cases h
        · cases h
          simp_all [pushFrame_cmp, popFrame_cmp]
    | POPRF =>
      obtain ⟨_, _, hA, h⟩ := bind_ok_elim h
      have e1 := consume_int_cmp hA
      split at h
      · cases h
      · split at h
        · cases h
        · cases h
          simp_all [pushFrame_cmp, popFrame_cmp]
    | ADD =>
      obtain ⟨_, _, hA, h⟩ := bind_ok_elim h
      obtain ⟨_, _, hB, h⟩ := bind_ok_elim h
      cases h
      have e1 := consume_reg_cmp hA
      have e2 := consume_reg_cmp hB
      simp_all [VM.setReg]
    | ADDL =>
      obtain ⟨_, _, hA, h⟩ := bind_ok_elim h
      obtain ⟨_, _, hB, h⟩ := bind_ok_elim h
      cases h
      have e1 := consume_int_cmp hA
      have e2 := consume_reg_cmp hB
      simp_all [VM.setReg]
    | SUB =>
      obtain ⟨_, _, hA, h⟩ := bind_ok_elim h
      obtain ⟨_, _, hB, h⟩ := bind_ok_elim h
      cases h
      have e1 := consume_reg_cmp hA
      have e2 := consume_reg_cmp hB
      simp_all [VM.setReg]
    | SUBL =>
      obtain ⟨_, _, hA, h⟩ := bind_ok_elim h
      obtain ⟨_, _, hB, h⟩ := bind_ok_elim h
      cases h
      have e1 := consume_int_cmp hA
      have e2 := consume_reg_cmp hB
      simp_all [VM.setReg]
    | SUB2L =>
      obtain ⟨_, _, hA, h⟩ := bind_ok_elim h
      obtain ⟨_, _, hB, h⟩ := bind_ok_elim h
      cases h
      have e1 := consume_int_cmp hA
      have e2 := consume_reg_cmp hB
      simp_all [VM.setReg]
    | MUL =>
      obtain ⟨_, _, hA, h⟩ := bind_ok_elim h
      obtain ⟨_, _, hB, h⟩ := bind_ok_elim h
      cases h
      have e1 := consume_reg_cmp hA
      have e2 := consume_reg_cmp hB
      simp_all [VM.setReg]
    | MULL =>
      obtain ⟨_, _, hA, h⟩ := bind_ok_elim h
      obtain ⟨_, _, hB, h⟩ := bind_ok_elim h
      cases h
      have e1 := consume_int_cmp hA
      have e2 := consume_reg_cmp hB
      simp_all [VM.setReg]
    | DIV =>
      obtain ⟨_, _, hA, h⟩ := bind_ok_elim h
      obtain ⟨_, _, hB, h⟩ := bind_ok_elim h
      have e1 := consume_reg_cmp hA
      have e2 := consume_reg_cmp hB
      split at h
      · cases h
      · split at h
        · cases h
        · cases h
          simp_all [VM.setReg]
    | DIVL =>
      obtain ⟨_, _, hA, h⟩ := bind_ok_elim h
      obtain ⟨_, _, hB, h⟩ := bind_ok_elim h
      have e1 := consume_int_cmp hA
      have e2 := consume_reg_cmp hB
      split at h
      · cases h
      · split at h
        · cases h
        · cases h
          simp_all [VM.setReg]
    | DIV2L =>
      obtain ⟨_, _, hA, h⟩ := bind_ok_elim h
      obtain ⟨_, _, hB, h⟩ := bind_ok_elim h
      have e1 := consume_int_cmp hA
      have e2 := consume_reg_cmp hB
      split at h
      · cases h
      · split at h
        · cases h
        · cases h
          simp_all [VM.setReg]
    | MOD =>
      obtain ⟨_, _, hA, h⟩ := bind_ok_elim h
      obtain ⟨_, _, hB, h⟩ := bind_ok_elim h
      have e1 := consume_reg_cmp hA
      have e2 := consume_reg_cmp hB
      split at h
      · cases h
      · split at h
        · cases h
        · cases h
          simp_all [VM.setReg]
    | INC =>
      obtain ⟨_, _, hA, h⟩ := bind_ok_elim h
      cases h
      have e1 := consume_reg_cmp hA
      simp_all [VM.setReg]
    | DEC =>
      obtain ⟨_, _, hA, h⟩ := bind_ok_elim h
      cases h
      have e1 := consume_reg_cmp hA
      simp_all [VM.setReg]
    | ADDF =>
      obtain ⟨_, _, hA, h⟩ := bind_ok_elim h
      obtain ⟨_, _, hB, h⟩ := bind_ok_elim h
      cases h
      have e1 := consume_reg_cmp hA
      have e2 := consume_reg_cmp hB
      simp_all [VM.setReg]
    | ADDFL =>
      obtain ⟨_, _, hA, h⟩ := bind_ok_elim h
      obtain ⟨_, _, hB, h⟩ := bind_ok_elim h
      cases h
      have e1 := consume_real_cmp hA
      have e2 := consume_reg_cmp hB
      simp_all [VM.setReg]
    | SUBF =>
      obtain ⟨_, _, hA, h⟩ := bind_ok_elim h
      obtain ⟨_, _, hB, h⟩ := bind_ok_elim h
      cases h
      have e1 := consume_reg_cmp hA
      have e2 := consume_reg_cmp hB
      simp_all [VM.setReg]
    | SUBFL =>
      obtain ⟨_, _, hA, h⟩ := bind_ok_elim h
      obtain ⟨_, _, hB, h⟩ := bind_ok_elim h
      cases h
      have e1 := consume_real_cmp hA
      have e2 := consume_reg_cmp hB
      simp_all [VM.setReg]
    | SUBF2L =>
      obtain ⟨_, _, hA, h⟩ := bind_ok_elim h
      obtain ⟨_, _, hB, h⟩ := bind_ok_elim h
      cases h
      have e1 := consume_real_cmp hA
      have e2 := consume_reg_cmp hB
      simp_all [VM.setReg]
    | MULF =>
      obtain ⟨_, _, hA, h⟩ := bind_ok_elim h
      obtain ⟨_, _, hB, h⟩ := bind_ok_elim h
      cases h
      have e1 := consume_reg_cmp hA
      have e2 := consume_reg_cmp hB
      simp_all [VM.setReg]
    | MULFL =>
      obtain ⟨_, _, hA, h⟩ := bind_ok_elim h
      obtain ⟨_, _, hB, h⟩ := bind_ok_elim h
      cases h
      have e1 := consume_real_cmp hA
      have e2 := consume_reg_cmp hB
      simp_all [VM.setReg]
    | DIVF =>
      obtain ⟨_, _, hA, h⟩ := bind_ok_elim h
      obtain ⟨_, _, hB, h⟩ := bind_ok_elim h
      cases h
      have e1 := consume_reg_cmp hA
      have e2 := consume_reg_cmp hB
      simp_all [VM.setReg]
    | DIVFL =>
      obtain ⟨_, _, hA, h⟩ := bind_ok_elim h
      obtain ⟨_, _, hB, h⟩ := bind_ok_elim h
      cases h
      have e1 := consume_real_cmp hA
      have e2 := consume_reg_cmp hB
      simp_all [VM.setReg]
    | DIVF2L =>
      obtain ⟨_, _, hA, h⟩ := bind_ok_elim h
      obtain ⟨_, _, hB, h⟩ := bind_ok_elim h
      cases h
      have e1 := consume_real_cmp hA
      have e2 := consume_reg_cmp hB
      simp_all [VM.setReg]
    | POW =>
      obtain ⟨_, _, hA, h⟩ := bind_ok_elim h
      obtain ⟨_, _, hB, h⟩ := bind_ok_elim h
      cases h
      have e1 := consume_reg_cmp hA
      have e2 := consume_reg_cmp hB
      simp_all [VM.setReg]
    | POW2 =>
      obtain ⟨_, _, hA, h⟩ := bind_ok_elim h
      obtain ⟨_, _, hB, h⟩ := bind_ok_elim h
      cases h
      have e1 := consume_reg_cmp hA
      have e2 := consume_reg_cmp hB
      simp_all [VM.setReg]
    | POWL =>
      obtain ⟨_, _, hA, h⟩ := bind_ok_elim h
      obtain ⟨_, _, hB, h⟩ := bind_ok_elim h
      cases h
      have e1 := consume_real_cmp hA
      have e2 := consume_reg_cmp hB
      simp_all [VM.setReg]
    | POW2L =>
      obtain ⟨_, _, hA, h⟩ := bind_ok_elim h
      obtain ⟨_, _, hB, h⟩ := bind_ok_elim h
      cases h
      have e1 := consume_real_cmp hA
      have e2 := consume_reg_cmp hB
      simp_all [VM.setReg]
    | CEIL =>
      obtain ⟨_, _, hA, h⟩ := bind_ok_elim h
      have e1 := consume_reg_cmp hA
      split at h
      · cases h
      · cases h
        simp_all [VM.setReg]
    | FLOR =>
      obtain ⟨_, _, hA, h⟩ := bind_ok_elim h
      have e1 := consume_reg_cmp hA
      split at h
      · cases h
      · cases h
        simp_all [VM.setReg]
    | CMP =>
      obtain ⟨_, _, hA, h⟩ := bind_ok_elim h
      obtain ⟨_, _, hB, h⟩ := bind_ok_elim h
      cases h
      exact Or.inr (cmp3_range _ _)
    | CMPL =>
      obtain ⟨_, _, hA, h⟩ := bind_ok_elim h
      obtain ⟨_, _, hB, h⟩ := bind_ok_elim h
      cases h
      exact Or.inr (cmp3_range _ _)
    | JMP =>
      obtain ⟨_, _, hA, h⟩ := bind_ok_elim h
      cases h
      have e1 := consume_addr_cmp hA
      simp_all [VM.setReg]
    | JEQ =>
      obtain ⟨_, _, hA, h⟩ := bind_ok_elim h
      have e1 := consume_addr_cmp hA
      cases h
      split <;> simp_all
    | JLT =>
      obtain ⟨_, _, hA, h⟩ := bind_ok_elim h
      have e1 := consume_addr_cmp hA
      cases h
      split <;> simp_all
    | JLE =>
      obtain ⟨_, _, hA, h⟩ := bind_ok_elim h
      have e1 := consume_addr_cmp hA
      cases h
      split <;> simp_all
    | JGT =>
      obtain ⟨_, _, hA, h⟩ := bind_ok_elim h
      have e1 := consume_addr_cmp hA
      cases h
      split <;> simp_all
    | JGE =>
      obtain ⟨_, _, hA, h⟩ := bind_ok_elim h
      have e1 := consume_addr_cmp hA
      cases h
      split <;> simp_all
    | JNE =>
      obtain ⟨_, _, hA, h⟩ := bind_ok_elim h
      have e1 := consume_addr_cmp hA
      cases h
      split <;> simp_all
    | CALL =>
      obtain ⟨_, _, hA, h⟩ := bind_ok_elim h
      have e1 := consume_addr_cmp hA
      split at h
      · cases h
      · cases h
        simp_all [VM.setReg]
    | RET =>
      simp only [] at h
      split at h
      · cases h
      · cases h
        simp_all
    | DBGREG =>
      obtain ⟨_, _, hA, h⟩ := bind_ok_elim h
      cases h
      have e1 := consume_reg_cmp hA
      simp_all [VM.setReg]
    | DBGREGF =>
      obtain ⟨_, _, hA, h⟩ := bind_ok_elim h
      cases h
      have e1 := consume_reg_cmp hA
      simp_all [VM.setReg]
    | DBGREGS =>
      cases h
      exact Or.inl hc0

/-! ### Forward characterizations at known code -/

theorem consume_op_of (F : FloatOps) (s : VM) (op : OpCode)
    (h : s.code.get? s.pc = some (.Op op)) :
    consume_op F s = .ok op { s with pc := s.pc + 1 } := by
  simp only [consume_op, h]

theorem consume_reg_of (F : FloatOps) (s : VM) (r : Nat)
    (h : s.code.get? s.pc = some (.Reg r)) (hr : r < NUM_REGISTERS) :
    consume_reg F s = .ok r { s with pc := s.pc + 1 } := by
  have hn : ¬ NUM_REGISTERS ≤ r := by omega
  simp only [consume_reg, h]
  rw [if_neg hn]

theorem consume_int_of (F : FloatOps) (s : VM) (v : Int)
    (h : s.code.get? s.pc = some (.Int v)) :
    consume_int F s = .ok v { s with pc := s.pc + 1 } := by
  simp only [consume_int, h]

theorem consume_addr_of (F : FloatOps) (s : VM) (a : Nat)
    (h : s.code.get? s.pc = some (.Addr a)) :
    consume_addr F s = .ok a { s with pc := s.pc + 1 } := by
  simp only [consume_addr, h]

theorem consume_real_of (F : FloatOps) (s : VM) (bits : Nat)
    (h : s.code.get? s.pc = some (.Real bits)) :
    consume_real F s = .ok bits { s with pc := s.pc + 1 } := by
  simp only [consume_real, h]

/-! ### The PUSHRF/POPRF loops -/

theorem pushFrame_sp (s : VM) (k : Nat) : (pushFrame s k).sp = s.sp + k := by
  induction k with
  | zero => rfl
  | succ k ih => simp [pushFrame, ih]; omega

theorem pushFrame_regs (s : VM) (k : Nat) : (pushFrame s k).regs = s.regs := by
  induction k with
  | zero => rfl
  | succ k ih => simp [pushFrame, ih]

theorem pushFrame_pc (s : VM) (k : Nat) : (pushFrame s k).pc = s.pc := by
  induction k with
  | zero => rfl
  | succ k ih => simp [pushFrame, ih]

theorem pushFrame_stack (s : VM) (k : Nat) (j : Nat) :
    (pushFrame s k).stack j =
      if s.sp ≤ j ∧ j < s.sp + k then s.regs (j - s.sp) else s.stack j := by
  induction k with
  | zero =>
    simp only [pushFrame]
    rw [if_neg (show ¬ (s.sp ≤ j ∧ j < s.sp + 0) by omega)]
  | succ k ih =>
    simp only [pushFrame, upd]
    rw [pushFrame_sp, pushFrame_regs, ih]
    by_cases hj : j = s.sp + k
    · rw [if_pos hj, if_pos (show s.sp ≤ j ∧ j < s.sp + (k + 1) by omega)]
      congr 1
      omega
    · rw [if_neg hj]
      by_cases h1 : s.sp ≤ j ∧ j < s.sp + k
      · rw [if_pos h1, if_pos (show s.sp ≤ j ∧ j < s.sp + (k + 1) by omega)]
      · rw [if_neg h1,
          if_neg (show ¬ (s.sp ≤ j ∧ j < s.sp + (k + 1)) by omega)]

theorem popFrame_sp (s : VM) (k : Nat) : (popFrame s k).sp = s.sp - k := by
  induction k generalizing s with
  | zero => rfl
  | succ k ih => simp [popFrame, ih]; omega

theorem popFrame_stack (s : VM) (k : Nat) : (popFrame s k).stack = s.stack := by
  induction k generalizing s with
  | zero => rfl
  | succ k ih => simp [popFrame, ih]

theorem popFrame_pc (s : VM) (k : Nat) : (popFrame s k).pc = s.pc := by
  induction k generalizing s with
  | zero => rfl
  | succ k ih => simp [popFrame, ih]

theorem popFrame_regs (s : VM) (k i : Nat) :
    k ≤ s.sp →
      (popFrame s k).regs i =
        if i < k then s.stack (s.sp - k + i) else s.regs i := by
  induction k generalizing s with
  | zero =>
    intro _
    simp only [popFrame]
    rw [if_neg (show ¬ i < 0 by omega)]
  | succ k ih =>
    intro hk
    simp only [popFrame]
    have hs : k ≤ s.sp - 1 := by omega
    rw [ih _ hs]
    simp only [upd]
    by_cases h1 : i < k
    · rw [if_pos h1, if_pos (show i < k + 1 by omega)]
      congr 1
      omega
    · rw [if_neg h1]
      by_cases h2 : i = k
      · rw [if_pos h2, if_pos (show i < k + 1 by omega)]
        congr 1
        omega
      · rw [if_neg h2, if_neg (show ¬ i < k + 1 by omega)]
/-! ### Symbolic step computations at known code -/

/-- C9 core: stepping with pc at or past the end of the code panics on the
unchecked index (it does not return an error result). -/
theorem step_past_end (F : FloatOps) (s : VM) (h : s.code.length ≤ s.pc) :
    step F s = .crash (oobIdx s.code.length s.pc) := by
  have hn : s.code.get? s.pc = none := List.get?_eq_none.mpr h
  simp only [step, consume_op, hn, Res.bind_crash]

theorem step_CMP_ok (F : FloatOps) (s : VM) (ra rb : Nat)
    (h0 : s.code.get? s.pc = some (.Op .CMP))
    (h1 : s.code.get? (s.pc + 1) = some (.Reg ra))
    (h2 : s.code.get? (s.pc + 2) = some (.Reg rb))
    (hra : ra < NUM_REGISTERS) (hrb : rb < NUM_REGISTERS) :
    step F s = .ok (true, none)
      { s with pc := s.pc + 3, cmp := cmp3 (s.regs rb) (s.regs ra) } := by
  simp only [step, consume_op, consume_reg, h0, h1, h2, Res.bind_ok,
    not_le.mpr hra, not_le.mpr hrb, if_false]

theorem step_CMPL_ok (F : FloatOps) (s : VM) (x : Int) (rb : Nat)
    (h0 : s.code.get? s.pc = some (.Op .CMPL))
    (h1 : s.code.get? (s.pc + 1) = some (.Int x))
    (h2 : s.code.get? (s.pc + 2) = some (.Reg rb))
    (hrb : rb < NUM_REGISTERS) :
    step F s = .ok (true, none)
      { s with pc := s.pc + 3, cmp := cmp3 (s.regs rb) x } := by
  simp only [step, consume_op, consume_int, consume_reg, h0, h1, h2,
    Res.bind_ok, not_le.mpr hrb, if_false]

theorem step_CALL_ok (F : FloatOps) (s : VM) (a : Nat)
    (h0 : s.code.get? s.pc = some (.Op .CALL))
    (h1 : s.code.get? (s.pc + 1) = some (.Addr a))
    (hcsp : s.csp < CALL_STACK_SIZE) :
    step F s = .ok (true, none)
      { s with pc := a, csp := s.csp + 1,
               call_stack := upd s.call_stack s.csp (s.pc + 2) } := by
  simp only [step, consume_op, consume_addr, h0, h1, Res.bind_ok,
    not_le.mpr hcsp, if_false]

theorem step_RET_ok (F : FloatOps) (s : VM)
    (h0 : s.code.get? s.pc = some (.Op .RET)) (hcsp : ¬ s.csp = 0) :
    step F s = .ok (true, none)
      { s with pc := s.call_stack (s.csp - 1), csp := s.csp - 1 } := by
  simp only [step, consume_op, h0, Res.bind_ok, hcsp, if_false]

theorem step_PUSH_ok (F : FloatOps) (s : VM) (r : Nat)
    (h0 : s.code.get? s.pc = some (.Op .PUSH))
    (h1 : s.code.get? (s.pc + 1) = some (.Reg r))
    (hr : r < NUM_REGISTERS) (hsp : s.sp < STACK_SIZE) :
    step F s = .ok (true, none)
      { s with pc := s.pc + 2, stack := upd s.stack s.sp (s.regs r),
               sp := s.sp + 1 } := by
  simp only [step, consume_op, consume_reg, h0, h1, Res.bind_ok,
    not_le.mpr hr, not_le.mpr hsp, if_false]

theorem step_PUSHRF_ok (F : FloatOps) (s : VM) (v : Int)
    (h0 : s.code.get? s.pc = some (.Op .PUSHRF))
    (h1 : s.code.get? (s.pc + 1) = some (.Int v))
    (hv1 : 1 ≤ v) (hv2 : v < (NUM_REGISTERS : Int))
    (hsp : s.sp + v.toNat < STACK_SIZE) :
    step F s = .ok (true, none) (pushFrame { s with pc := s.pc + 2 } v.toNat) := by
  simp only [step, consume_op, consume_int, h0, h1, Res.bind_ok,
    not_le.mpr hsp, if_false,
    show ¬ (v < 1 ∨ (NUM_REGISTERS : Int) ≤ v) by omega]

/-- C10 core: PUSHRF is rejected whenever sp + frame size is at least
STACK_SIZE — including the boundary case of exactly enough room — with the
state otherwise unchanged but pc already advanced past the operand. -/
theorem step_PUSHRF_overflow (F : FloatOps) (s : VM) (v : Int)
    (h0 : s.code.get? s.pc = some (.Op .PUSHRF))
    (h1 : s.code.get? (s.pc + 1) = some (.Int v))
    (hv1 : 1 ≤ v) (hv2 : v < (NUM_REGISTERS : Int))
    (hsp : STACK_SIZE ≤ s.sp + v.toNat) :
    step F s = .err (errFmt ("PUSHRF " ++ toString v.toNat ++
      ": stack overflow")) { s with pc := s.pc + 2 } := by
  simp only [step, consume_op, consume_int, h0, h1, Res.bind_ok,
    show ¬ (v < 1 ∨ (NUM_REGISTERS : Int) ≤ v) by omega, if_false,
    hsp, if_true]

theorem step_POPRF_ok (F : FloatOps) (s : VM) (v : Int)
    (h0 : s.code.get? s.pc = some (.Op .POPRF))
    (h1 : s.code.get? (s.pc + 1) = some (.Int v))
    (hv1 : 1 ≤ v) (hv2 : v < (NUM_REGISTERS : Int)) (hsp : v.toNat ≤ s.sp) :
    step F s = .ok (true, none) (popFrame { s with pc := s.pc + 2 } v.toNat) := by
  simp only [step, consume_op, consume_int, h0, h1, Res.bind_ok,
    not_lt.mpr hsp, if_false,
    show ¬ (v < 1 ∨ (NUM_REGISTERS : Int) ≤ v) by omega]

/-- C8 core: DIV with a zero divisor register panics (native division). -/
theorem step_DIV_zero (F : FloatOps) (s : VM) (ra rb : Nat)
    (h0 : s.code.get? s.pc = some (.Op .DIV))
    (h1 : s.code.get? (s.pc + 1) = some (.Reg ra))
    (h2 : s.code.get? (s.pc + 2) = some (.Reg rb))
    (hra : ra < NUM_REGISTERS) (hrb : rb < NUM_REGISTERS)
    (hz : s.regs ra = 0) :
    step F s = .crash "attempt to divide by zero" := by
  simp only [step, consume_op, consume_reg, h0, h1, h2, Res.bind_ok,
    not_le.mpr hra, not_le.mpr hrb, if_false, hz, if_true]

theorem step_DIVL_zero (F : FloatOps) (s : VM) (rb : Nat)
    (h0 : s.code.get? s.pc = some (.Op .DIVL))
    (h1 : s.code.get? (s.pc + 1) = some (.Int 0))
    (h2 : s.code.get? (s.pc + 2) = some (.Reg rb))
    (hrb : rb < NUM_REGISTERS) :
    step F s = .crash "attempt to divide by zero" := by
  simp only [step, consume_op, consume_int, consume_reg, h0, h1, h2,
    Res.bind_ok, not_le.mpr hrb, if_false, if_true]

theorem step_DIV2L_zero (F : FloatOps) (s : VM) (x : Int) (rb : Nat)
    (h0 : s.code.get? s.pc = some (.Op .DIV2L))
    (h1 : s.code.get? (s.pc + 1) = some (.Int x))
    (h2 : s.code.get? (s.pc + 2) = some (.Reg rb))
    (hrb : rb < NUM_REGISTERS) (hz : s.regs rb = 0) :
    step F s = .crash "attempt to divide by zero" := by
  simp only [step, consume_op, consume_int, consume_reg, h0, h1, h2,
    Res.bind_ok, not_le.mpr hrb, if_false, hz, if_true]

theorem step_MOD_zero (F : FloatOps) (s : VM) (ra rb : Nat)
    (h0 : s.code.get? s.pc = some (.Op .MOD))
    (h1 : s.code.get? (s.pc + 1) = some (.Reg ra))
    (h2 : s.code.get? (s.pc + 2) = some (.Reg rb))
    (hra : ra < NUM_REGISTERS) (hrb : rb < NUM_REGISTERS)
    (hz : s.regs ra = 0) :
    step F s = .crash "attempt to calculate the remainder with a divisor of zero" := by
  simp only [step, consume_op, consume_reg, h0, h1, h2, Res.bind_ok,
    not_le.mpr hra, not_le.mpr hrb, if_false, hz, if_true]

/-- Repeated stepping (success only; stops at the first error or panic). -/
def stepN (F : FloatOps) : Nat → VM → Res Unit
  | 0, s => .ok () s
  | k + 1, s =>
    match step F s with
    | .ok _ s2 => stepN F k s2
    | .err m s2 => .err m s2
    | .crash m => .crash m

/-! ### Parser output well-formedness (towards the round-trip claim) -/

theorem WFStream.append {a b : List Code} (ha : WFStream a) (hb : WFStream b) :
    WFStream (a ++ b) := by
  induction ha with
  | nil => exact hb
  | nilOp op h rest _ ih => exact .nilOp op h _ ih
  | reg op r h hr rest _ ih => exact .reg op r h hr _ ih
  | intReg op v r h hv1 hv2 hr rest _ ih => exact .intReg op v r h hv1 hv2 hr _ ih
  | regReg op r1 r2 h hr1 hr2 rest _ ih => exact .regReg op r1 r2 h hr1 hr2 _ ih
  | addr op a2 h rest _ ih => exact .addr op a2 h _ ih
  | int op v h hv1 hv2 rest _ ih => exact .int op v h hv1 hv2 _ ih
  | realReg op bits r h hb2 hr rest _ ih => exact .realReg op bits r h hb2 hr _ ih

theorem parseI64_range (t : List Char) (v : Int) (h : parseI64 t = some v) :
    -(twoPow63 : Int) ≤ v ∧ v < (twoPow63 : Int) := by
  unfold parseI64 at h
  split at h
  all_goals
    (rw [Option.bind_eq_some] at h
     obtain ⟨m, hm, hv⟩ := h
     split_ifs at hv with hb
     cases hv
     unfold twoPow63 at *
     omega)

theorem parseU8_lt (t : List Char) (r : Nat) (h : parseU8 t = some r) :
    r < 256 := by
  unfold parseU8 at h
  split at h
  all_goals
    (rw [Option.bind_eq_some] at h
     obtain ⟨m, hm, hv⟩ := h
     split_ifs at hv with hb
     cases hv
     omega)

theorem exceptBind_ok {ε α β : Type} {x : Except ε α} {f : α → Except ε β}
    {b : β} (h : x.bind f = .ok b) : ∃ a, x = .ok a ∧ f a = .ok b := by
  cases x with
  | ok a => exact ⟨a, rfl, h⟩
  | error e => simp [Except.bind] at h

theorem pConsumeInt_range {fname : String} {n : Nat} {op : OpCode}
    {toks toks2 : List (List Char)} {v : Int}
    (h : pConsumeInt fname n op toks = .ok (v, toks2)) :
    -(twoPow63 : Int) ≤ v ∧ v < (twoPow63 : Int) := by
  unfold pConsumeInt at h
  split at h
  · cases h
  · split at h
    · rename_i hp
      cases h
      exact parseI64_range _ _ hp
    · cases h

theorem pConsumeReg_lt {fname : String} {n : Nat} {op : OpCode}
    {toks toks2 : List (List Char)} {r : Nat}
    (h : pConsumeReg fname n op toks = .ok (r, toks2)) : r < 256 := by
  unfold pConsumeReg at h
  split at h
  · cases h
  · split at h
    · split at h
      · rename_i hp
        cases h
        exact parseU8_lt _ _ hp
      · cases h
    · cases h

theorem pConsumeReal_lt {fromStrF : List Char → Option Nat} {fname : String}
    {n : Nat} {op : OpCode} {toks toks2 : List (List Char)} {bits : Nat}
    (hF : ∀ t b, fromStrF t = some b → b < twoPow64)
    (h : pConsumeReal fromStrF fname n op toks = .ok (bits, toks2)) :
    bits < twoPow64 := by
  unfold pConsumeReal at h
  split at h
  · cases h
  · split at h
    · rename_i hp
      cases h
      exact hF _ _ hp
    · cases h

/-- The parser-state invariant carried through the line loop: the emitted
code is shape-well-formed, every recorded label reference points at an Addr
atom, every label value is at most the current code length, and every Addr
payload is at most the current code length. -/
def Inv (st : PSt) : Prop :=
  WFStream st.code ∧
  (∀ p l, (p, l) ∈ st.label_refs → ∃ a0, st.code.get? p = some (.Addr a0)) ∧
  (∀ l a, (l, a) ∈ st.labels → a ≤ st.code.length) ∧
  (∀ a, Code.Addr a ∈ st.code → a ≤ st.code.length)

theorem Inv_label (st : PSt) (lbl : List Char) (hInv : Inv st) :
    Inv { st with labels := (lbl, st.code.length) :: st.labels } := by
  obtain ⟨h1, h2, h3, h4⟩ := hInv
  refine ⟨h1, h2, ?_, h4⟩
  intro l a hmem
  rcases List.mem_cons.mp hmem with heq | hmem2
  · cases heq; exact le_refl _
  · exact h3 l a hmem2

theorem Inv_label_parent (st : PSt) (lbl : List Char) (hInv : Inv st) :
    Inv { st with labels := (lbl, st.code.length) :: st.labels,
                  parent := lbl } := by
  obtain ⟨h1, h2, h3, h4⟩ := hInv
  refine ⟨h1, h2, ?_, h4⟩
  intro l a hmem
  rcases List.mem_cons.mp hmem with heq | hmem2
  · cases heq; exact le_refl _
  · exact h3 l a hmem2

theorem Inv_append_instr (st : PSt) (instr : List Code) (hInv : Inv st)
    (hwf : WFStream instr) (haddr : ∀ a, Code.Addr a ∈ instr → a = 0) :
    Inv { st with code := st.code ++ instr } := by
  obtain ⟨h1, h2, h3, h4⟩ := hInv
  refine ⟨WFStream.append h1 hwf, ?_, ?_, ?_⟩
  · intro p l hmem
    obtain ⟨a0, hget⟩ := h2 p l hmem
    rcases List.get?_eq_some.mp hget with ⟨hlt, _⟩
    exact ⟨a0, by rw [List.get?_append hlt]; exact hget⟩
  · intro l a hmem
    simp only [List.length_append]
    exact le_trans (h3 l a hmem) (Nat.le_add_right _ _)
  · intro a hmem
    simp only [List.length_append]
    rcases List.mem_append.mp hmem with hold | hnew
    · exact le_trans (h4 a hold) (Nat.le_add_right _ _)
    · rw [haddr a hnew]
      exact Nat.zero_le _

theorem Inv_append_addr (st : PSt) (op : OpCode) (lbl : List Char)
    (hInv : Inv st) (hop : OP_ARG_TYPES op = .Addr) :
    Inv { st with label_refs := (st.code.length + 1, lbl) :: st.label_refs,
                  code := st.code ++ [.Op op, .Addr 0] } := by
  obtain ⟨h1, h2, h3, h4⟩ := hInv
  refine ⟨WFStream.append h1 (.addr op 0 hop _ .nil), ?_, ?_, ?_⟩
  · intro p l hmem
    rcases List.mem_cons.mp hmem with heq | hmem2
    · cases heq
      refine ⟨0, ?_⟩
      rw [List.get?_append_right (by omega)]
      have he : st.code.length + 1 - st.code.length = 1 := by omega
      rw [he]
      rfl
    · obtain ⟨a0, hget⟩ := h2 p l hmem2
      rcases List.get?_eq_some.mp hget with ⟨hlt, _⟩
      exact ⟨a0, by rw [List.get?_append hlt]; exact hget⟩
  · intro l a hmem
    simp only [List.length_append]
    exact le_trans (h3 l a hmem) (Nat.le_add_right _ _)
  · intro a hmem
    simp only [List.length_append]
    rcases List.mem_append.mp hmem with hold | hnew
    · exact le_trans (h4 a hold) (Nat.le_add_right _ _)
    · simp at hnew
      omega

theorem doLine_inv {fromStrF : List Char → Option Nat} {fname : String}
    {st : PSt} {n : Nat} {line : List Char} {st2 : PSt}
    (hF : ∀ t b, fromStrF t = some b → b < twoPow64)
    (hInv : Inv st) (h : doLine fromStrF fname st n line = .ok st2) :
    Inv st2 := by
  unfold doLine at h
  simp only [] at h
  split at h
  · cases h; exact hInv
  · split at h
    · cases h; exact hInv
    · split at h
      · split at h
        · split at h
          · cases h
          · cases h
            exact Inv_label st _ hInv
        · split at h
          · cases h
          · cases h
            exact Inv_label_parent st _ hInv
      · split at h
        · cases h
        · rename_i op hop
          split at h
          · obtain ⟨u, hu, h⟩ := exceptBind_ok h
            cases h
            exact Inv_append_instr st _ hInv (.nilOp op (by assumption) _ .nil)
              (by intro a ha; simp at ha)
          · obtain ⟨⟨r, parts2⟩, hA, h⟩ := exceptBind_ok h
            obtain ⟨u, hu, h⟩ := exceptBind_ok h
            cases h
            exact Inv_append_instr st _ hInv
              (.reg op r (by assumption) (pConsumeReg_lt hA) _ .nil)
              (by intro a ha; simp at ha)
          · obtain ⟨⟨v, parts2⟩, hA, h⟩ := exceptBind_ok h
            obtain ⟨⟨r, parts3⟩, hB, h⟩ := exceptBind_ok h
            obtain ⟨u, hu, h⟩ := exceptBind_ok h
            cases h
            have hv := pConsumeInt_range hA
            exact Inv_append_instr st _ hInv
              (.intReg op v r (by assumption) hv.1 hv.2 (pConsumeReg_lt hB)
                _ .nil)
              (by intro a ha; simp at ha)
          · obtain ⟨⟨r1, parts2⟩, hA, h⟩ := exceptBind_ok h
            obtain ⟨⟨r2, parts3⟩, hB, h⟩ := exceptBind_ok h
            obtain ⟨u, hu, h⟩ := exceptBind_ok h
            cases h
            exact Inv_append_instr st _ hInv
              (.regReg op r1 r2 (by assumption) (pConsumeReg_lt hA)
                (pConsumeReg_lt hB) _ .nil)
              (by intro a ha; simp at ha)
          · split at h
            · cases h
            · cases h
              exact Inv_append_addr st op _ hInv (by assumption)
          · obtain ⟨⟨v, parts2⟩, hA, h⟩ := exceptBind_ok h
            obtain ⟨u, hu, h⟩ := exceptBind_ok h
            cases h
            have hv := pConsumeInt_range hA
            exact Inv_append_instr st _ hInv
              (.int op v (by assumption) hv.1 hv.2 _ .nil)
              (by intro a ha; simp at ha)
          · obtain ⟨⟨bits, parts2⟩, hA, h⟩ := exceptBind_ok h
            obtain ⟨⟨r, parts3⟩, hB, h⟩ := exceptBind_ok h
            obtain ⟨u, hu, h⟩ := exceptBind_ok h
            cases h
            exact Inv_append_instr st _ hInv
              (.realReg op bits r (by assumption) (pConsumeReal_lt hF hA)
                (pConsumeReg_lt hB) _ .nil)
              (by intro a ha; simp at ha)

theorem doLines_inv {fromStrF : List Char → Option Nat} {fname : String}
    (hF : ∀ t b, fromStrF t = some b → b < twoPow64) :
    ∀ (ls : List (List Char)) (st : PSt) (n : Nat) (st2 : PSt), Inv st →
      doLines fromStrF fname st n ls = .ok st2 → Inv st2 := by
  intro ls
  induction ls with
  | nil =>
    intro st n st2 hInv h
    cases h
    exact hInv
  | cons l ls ih =>
    intro st n st2 hInv h
    unfold doLines at h
    split at h
    · rename_i st3 hline
      exact ih _ _ _ (doLine_inv hF hInv hline) h
    · cases h

theorem wf_set_addr {code : List Code} (hwf : WFStream code) :
    ∀ (p a0 a : Nat), code.get? p = some (.Addr a0) →
      WFStream (code.set p (.Addr a)) := by
  induction hwf with
  | nil => intro p a0 a hget; simp at hget
  | nilOp op h rest hrest ih =>
    intro p a0 a hget
    rcases p with _ | p
    · simp at hget
    · simp only [List.get?_cons_succ] at hget
      exact .nilOp op h _ (ih p a0 a hget)
  | reg op r h hr rest hrest ih =>
    intro p a0 a hget
    rcases p with _ | _ | p
    · simp at hget
    · simp at hget
    · simp only [List.get?_cons_succ] at hget
      exact .reg op r h hr _ (ih p a0 a hget)
  | intReg op v r h hv1 hv2 hr rest hrest ih =>
    intro p a0 a hget
    rcases p with _ | _ | _ | p
    · simp at hget
    · simp at hget
    · simp at hget
    · simp only [List.get?_cons_succ] at hget
      exact .intReg op v r h hv1 hv2 hr _ (ih p a0 a hget)
  | regReg op r1 r2 h hr1 hr2 rest hrest ih =>
    intro p a0 a hget
    rcases p with _ | _ | _ | p
    · simp at hget
    · simp at hget
    · simp at hget
    · simp only [List.get?_cons_succ] at hget
      exact .regReg op r1 r2 h hr1 hr2 _ (ih p a0 a hget)
  | addr op a2 h rest hrest ih =>
    intro p a0 a hget
    rcases p with _ | _ | p
    · simp at hget
    · exact .addr op a h _ hrest
    · simp only [List.get?_cons_succ] at hget
      exact .addr op a2 h _ (ih p a0 a hget)
  | int op v h hv1 hv2 rest hrest ih =>
    intro p a0 a hget
    rcases p with _ | _ | p
    · simp at hget
    · simp at hget
    · simp only [List.get?_cons_succ] at hget
      exact .int op v h hv1 hv2 _ (ih p a0 a hget)
  | realReg op bits r h hb hr rest hrest ih =>
    intro p a0 a hget
    rcases p with _ | _ | _ | p
    · simp at hget
    · simp at hget
    · simp at hget
    · simp only [List.get?_cons_succ] at hget
      exact .realReg op bits r h hb hr _ (ih p a0 a hget)

theorem lookupLabel_mem {ls : List (List Char × Nat)} {k : List Char}
    {a : Nat} (h : lookupLabel ls k = some a) : ∃ l0, (l0, a) ∈ ls := by
  unfold lookupLabel at h
  cases hf : ls.find? (fun p => p.1 = k) with
  | none => rw [hf] at h; cases h
  | some pr =>
    rw [hf] at h
    simp at h
    refine ⟨pr.1, ?_⟩
    have hm := List.mem_of_find?_eq_some hf
    rw [← h]
    simpa using hm

theorem substRefs_ok {labels : List (List Char × Nat)} :
    ∀ (refs : List (Nat × List Char)) (code code2 : List Code),
      substRefs labels refs code = .ok code2 →
      WFStream code →
      (∀ p l, (p, l) ∈ refs → ∃ a0, code.get? p = some (.Addr a0)) →
      (∀ l a, (l, a) ∈ labels → a ≤ code.length) →
      (∀ a, Code.Addr a ∈ code → a ≤ code.length) →
      WFStream code2 ∧ (∀ a, Code.Addr a ∈ code2 → a ≤ code2.length) ∧
        code2.length = code.length := by
  intro refs
  induction refs with
  | nil =>
    intro code code2 h hwf _ _ haddr
    cases h
    exact ⟨hwf, haddr, rfl⟩
  | cons pr rs ih =>
    intro code code2 h hwf hrefs hlab haddr
    obtain ⟨p, l⟩ := pr
    unfold substRefs at h
    split at h
    · cases h
    · rename_i a hla
      obtain ⟨a0, hget⟩ := hrefs p l (List.mem_cons_self _ _)
      have hwf2 := wf_set_addr hwf p a0 a hget
      have hrefs2 : ∀ p2 l2, (p2, l2) ∈ rs →
          ∃ b, (code.set p (.Addr a)).get? p2 = some (.Addr b) := by
        intro p2 l2 hmem
        by_cases hp : p = p2
        · subst hp
          refine ⟨a, ?_⟩
          rw [List.get?_set_eq, hget]
          rfl
        · rw [List.get?_set_ne _ _ hp]
          exact hrefs p2 l2 (List.mem_cons_of_mem _ hmem)
      have hlab2 : ∀ l2 a2, (l2, a2) ∈ labels →
          a2 ≤ (code.set p (.Addr a)).length := by
        intro l2 a2 hmem
        rw [List.length_set]
        exact hlab l2 a2 hmem
      have haddr2 : ∀ a2, Code.Addr a2 ∈ code.set p (.Addr a) →
          a2 ≤ (code.set p (.Addr a)).length := by
        intro a2 hmem
        rw [List.length_set]
        rcases List.mem_or_eq_of_mem_set hmem with hold | hnew
        · exact haddr a2 hold
        · cases hnew
          obtain ⟨l0, hl0⟩ := lookupLabel_mem hla
          exact hlab l0 a hl0
      obtain ⟨w1, w2, w3⟩ := ih _ _ h hwf2 hrefs2 hlab2 haddr2
      refine ⟨w1, w2, ?_⟩
      rw [w3, List.length_set]

theorem parse_string_wf {fromStrF : List Char → Option Nat} {raw : String}
    {fname : String} {S : List Code}
    (hF : ∀ t b, fromStrF t = some b → b < twoPow64)
    (h : parse_string fromStrF raw fname = .ok S) :
    WFStream S ∧ ∀ a, Code.Addr a ∈ S → a ≤ S.length := by
  unfold parse_string at h
  split at h
  · cases h
  · rename_i st hlines
    have hInv0 : Inv ⟨[], [], [], "__beggining_of_program__".data⟩ := by
      refine ⟨.nil, ?_, ?_, ?_⟩ <;> intro a <;> simp
    have hInv := doLines_inv hF _ _ _ _ hInv0 hlines
    obtain ⟨w1, w2, w3⟩ :=
      substRefs_ok _ _ _ h hInv.1 hInv.2.1 hInv.2.2.1 hInv.2.2.2
    exact ⟨w1, w2⟩

theorem step_CALL_overflow (F : FloatOps) (s : VM) (a : Nat)
    (h0 : s.code.get? s.pc = some (.Op .CALL))
    (h1 : s.code.get? (s.pc + 1) = some (.Addr a))
    (hcsp : CALL_STACK_SIZE ≤ s.csp) :
    step F s = .err (errFmt "Call stack overflow") { s with pc := s.pc + 2 } := by
  simp only [step, consume_op, consume_addr, h0, h1, Res.bind_ok, hcsp,
    if_true]

theorem step_PUSHRF_badsize (F : FloatOps) (s : VM) (v : Int)
    (h0 : s.code.get? s.pc = some (.Op .PUSHRF))
    (h1 : s.code.get? (s.pc + 1) = some (.Int v))
    (hv : v < 1 ∨ (NUM_REGISTERS : Int) ≤ v) :
    step F s = .err (errFmt ("PUSHRF received a register frame size of " ++
      toString v ++ " out of bounds")) { s with pc := s.pc + 2 } := by
  simp only [step, consume_op, consume_int, h0, h1, Res.bind_ok, hv, if_true,
    iff_true]

theorem cmp3_eq_one_iff (x y : Int) : cmp3 x y = 1 ↔ y < x := by
  unfold cmp3
  split_ifs with h1 h2
  · exact ⟨fun hc => absurd hc (by norm_num), fun hc => by omega⟩
  · exact ⟨fun hc => absurd hc (by norm_num), fun hc => by omega⟩
  · exact ⟨fun _ => by omega, fun _ => rfl⟩

theorem cmp3_eq_zero_iff (x y : Int) : cmp3 x y = 0 ↔ x = y := by
  unfold cmp3
  split_ifs with h1 h2
  · exact ⟨fun hc => absurd hc (by norm_num), fun hc => by omega⟩
  · exact ⟨fun _ => h2, fun _ => rfl⟩
  · exact ⟨fun hc => absurd hc (by norm_num), fun hc => by omega⟩

theorem cmp3_eq_negone_iff (x y : Int) : cmp3 x y = -1 ↔ x < y := by
  unfold cmp3
  split_ifs with h1 h2
  · exact ⟨fun _ => h1, fun _ => rfl⟩
  · exact ⟨fun hc => absurd hc (by norm_num), fun hc => by omega⟩
  · exact ⟨fun hc => absurd hc (by norm_num), fun hc => by omega⟩

/-! ## Claim theorems -/

/-- The assembled form of the source line POWL 2 r0 followed by HALT. -/
def powlCode : List Code := [.Op .POWL, .Int 2, .Reg 0, .Op .HALT]

/-- The assembled form of the source line POW2L 3 r1 followed by HALT. -/
def pow2lCode : List Code := [.Op .POW2L, .Int 3, .Reg 1, .Op .HALT]

/-- C1: the operand-shape table OP_ARG_TYPES lists POWL and POW2L as
IntReg, so the assembler emits an Int atom for their literal operand — but
the interpreter arms for POWL and POW2L consume a Real atom, so the very
first execution of an assembled POWL or POW2L instruction fails with a
tag-mismatch error.  The table, the assembler and the interpreter do not
agree on these two opcodes. -/
theorem powl_shape_mismatch :
    OP_ARG_TYPES .POWL = .IntReg ∧ OP_ARG_TYPES .POW2L = .IntReg ∧
    (∀ (nf : List Char → Option Nat) (fname : String),
      parse_string nf "POWL 2 r0\nHALT" fname = .ok powlCode) ∧
    (∀ F : FloatOps,
      step F (VM.new powlCode) =
        .err (errFmt "Expected a real, but got 2i at 1")
          { VM.new powlCode with pc := 1 }) ∧
    (∀ (nf : List Char → Option Nat) (fname : String),
      parse_string nf "POW2L 3 r1\nHALT" fname = .ok pow2lCode) ∧
    (∀ F : FloatOps,
      step F (VM.new pow2lCode) =
        .err (errFmt "Expected a real, but got 3i at 1")
          { VM.new pow2lCode with pc := 1 }) :=
  ⟨rfl, rfl, fun _ _ => rfl, fun _ => rfl, fun _ _ => rfl, fun _ => rfl⟩

/-- C4: a binary with a valid signature and version that ends mid-
instruction (here: an opcode byte whose shape requires nine more operand
bytes, with none present) makes deserialize index past the end of the byte
vector — a Rust panic — instead of returning an error string.  The same
header with no instruction bytes at all deserializes fine, isolating the
truncation as the cause. -/
theorem deserialize_truncated_panics :
    deserialize (UVM_BINARY_SIGNATURE ++ [UVM_BINARY_VERSION]) = .ok [] ∧
    deserialize (UVM_BINARY_SIGNATURE ++ [UVM_BINARY_VERSION, OpCode.tag .SET]) =
      .crash oobMsg := by
  exact ⟨by decide, by decide⟩

/-- C3 counterexample: the claim says a register token with numeric value
in [NUM_REGISTERS, 255] is a parse error, but the assembler accepts
SET 2 r255 and emits Reg 255. -/
theorem reg_token_accepts_r255 :
    parse_string (fun _ => none) "SET 2 r255" "f" =
      .ok [.Op .SET, .Int 2, .Reg 255] := rfl

/-- C3 (amended): the assembler accepts a Reg token exactly when it starts
with r followed by a decimal u8 (any value in [0, 255]); the
< NUM_REGISTERS bound is not checked at parse time but by the
interpreter's consume_reg at runtime, which rejects indices at and above
NUM_REGISTERS with an error. -/
theorem reg_token_parse_vs_runtime :
    (∀ (fname : String) (n : Nat) (op : OpCode) (toks toks2 : List (List Char))
        (r : Nat), pConsumeReg fname n op toks = .ok (r, toks2) → r < 256) ∧
    (∀ (nf : List Char → Option Nat) (fname : String),
      parse_string nf "SET 2 r255" fname = .ok [.Op .SET, .Int 2, .Reg 255]) ∧
    (∀ (F : FloatOps) (s : VM) (r : Nat),
      s.code.get? s.pc = some (.Reg r) → NUM_REGISTERS ≤ r →
      consume_reg F s = .err (errFmt ("Register " ++ toString r ++
        " out of bounds (>" ++ toString (NUM_REGISTERS - 1) ++ ")")) s) ∧
    (∀ F : FloatOps,
      step F (VM.new [.Op .SET, .Int 2, .Reg 255]) =
        .err (errFmt "Register 255 out of bounds (>15)")
          { VM.new [.Op .SET, .Int 2, .Reg 255] with pc := 2 }) := by
  refine ⟨?_, fun _ _ => rfl, ?_, fun _ => rfl⟩
  · intro fname n op toks toks2 r h
    exact pConsumeReg_lt h
  · intro F s r hcode hge
    simp only [consume_reg, hcode]
    rw [if_pos hge]

/-- The assembled form of SET 42 r0 / DBGREG r0 / HALT. -/
def dbgCode : List Code :=
  [.Op .SET, .Int 42, .Reg 0, .Op .DBGREG, .Reg 0, .Op .HALT]

/-- C7 counterexample: the captured output of the debug program is not the
plain string the claim states — the [DEBUG] prefix is wrapped in ANSI
color escape codes by the dbg! macro. -/
theorem debug_capture_exact_output_cex :
    parse_string (fun _ => none) "SET 42 r0\nDBGREG r0\nHALT" "t" =
        .ok dbgCode ∧
    (∃ sf, VM.run F0 4 (VM.new dbgCode).capture =
      .ok "\x1b[1;32m[DEBUG]\x1b[0m r0 = 42\n" sf) ∧
    "\x1b[1;32m[DEBUG]\x1b[0m r0 = 42\n" ≠ "[DEBUG] r0 = 42\n" := by
  exact ⟨rfl, ⟨_, rfl⟩, by decide⟩

/-- C7 (amended): running SET 42 r0 / DBGREG r0 / HALT with capture mode
succeeds and the captured output is exactly one line whose [DEBUG] prefix
carries the ANSI bold-green escapes of the dbg! macro:
ESC[1;32m[DEBUG]ESC[0m r0 = 42, followed by a newline. -/
theorem debug_capture_ansi_output :
    (∀ (nf : List Char → Option Nat) (fname : String),
      parse_string nf "SET 42 r0\nDBGREG r0\nHALT" fname = .ok dbgCode) ∧
    (∀ F : FloatOps, ∃ sf,
      VM.run F 4 (VM.new dbgCode).capture =
        .ok (dbgFmt "r0 = 42" ++ "\n") sf) :=
  ⟨fun _ _ => rfl, fun _ => ⟨_, rfl⟩⟩

/-- C8: executing DIV, DIVL, DIV2L or MOD with a zero divisor does not
produce an error result: the interpreter reaches the unguarded native
division, which is a Rust panic that aborts the process. -/
theorem div_by_zero_panics :
    (∀ (F : FloatOps) (s : VM) (ra rb : Nat),
      s.code.get? s.pc = some (.Op .DIV) →
      s.code.get? (s.pc + 1) = some (.Reg ra) →
      s.code.get? (s.pc + 2) = some (.Reg rb) →
      ra < NUM_REGISTERS → rb < NUM_REGISTERS → s.regs ra = 0 →
      step F s = .crash "attempt to divide by zero") ∧
    (∀ (F : FloatOps) (s : VM) (rb : Nat),
      s.code.get? s.pc = some (.Op .DIVL) →
      s.code.get? (s.pc + 1) = some (.Int 0) →
      s.code.get? (s.pc + 2) = some (.Reg rb) →
      rb < NUM_REGISTERS →
      step F s = .crash "attempt to divide by zero") ∧
    (∀ (F : FloatOps) (s : VM) (x : Int) (rb : Nat),
      s.code.get? s.pc = some (.Op .DIV2L) →
      s.code.get? (s.pc + 1) = some (.Int x) →
      s.code.get? (s.pc + 2) = some (.Reg rb) →
      rb < NUM_REGISTERS → s.regs rb = 0 →
      step F s = .crash "attempt to divide by zero") ∧
    (∀ (F : FloatOps) (s : VM) (ra rb : Nat),
      s.code.get? s.pc = some (.Op .MOD) →
      s.code.get? (s.pc + 1) = some (.Reg ra) →
      s.code.get? (s.pc + 2) = some (.Reg rb) →
      ra < NUM_REGISTERS → rb < NUM_REGISTERS → s.regs ra = 0 →
      step F s = .crash
        "attempt to calculate the remainder with a divisor of zero") := by
  refine ⟨?_, ?_, ?_, ?_⟩
  · intro F s ra rb h0 h1 h2 hra hrb hz
    exact step_DIV_zero F s ra rb h0 h1 h2 hra hrb hz
  · intro F s rb h0 h1 h2 hrb
    exact step_DIVL_zero F s rb h0 h1 h2 hrb
  · intro F s x rb h0 h1 h2 hrb hz
    exact step_DIV2L_zero F s x rb h0 h1 h2 hrb hz
  · intro F s ra rb h0 h1 h2 hra hrb hz
    exact step_MOD_zero F s ra rb h0 h1 h2 hra hrb hz

/-- C9: when pc reaches (or passes) code.len() without a HALT, the next
step's consume_op performs an unchecked index into the code vector — a
Rust panic, not an error result — and the run loop propagates that panic. -/
theorem pc_past_end_panics :
    (∀ (F : FloatOps) (s : VM), s.code.length ≤ s.pc →
      step F s = .crash (oobIdx s.code.length s.pc)) ∧
    (∀ (F : FloatOps) (fuel : Nat) (s : VM) (acc : String),
      s.code.length ≤ s.pc →
      runLoop F (fuel + 1) s acc = .crash (oobIdx s.code.length s.pc)) := by
  constructor
  · intro F s h
    exact step_past_end F s h
  · intro F fuel s acc h
    simp only [runLoop, step_past_end F s h]

/-- C6: the comparison flag is 0 in the initial state, every successful
step keeps it in the sign range, and after CMP ra rb (resp. CMPL x rb) it
is the three-way sign of regs[rb] against regs[ra] (resp. against x). -/
theorem cmp_flag_invariant :
    (∀ code : List Code, (VM.new code).cmp = 0) ∧
    (∀ (F : FloatOps) (s : VM) (c : Bool) (o : Option String) (s1 : VM),
      (s.cmp = -1 ∨ s.cmp = 0 ∨ s.cmp = 1) → step F s = .ok (c, o) s1 →
      (s1.cmp = -1 ∨ s1.cmp = 0 ∨ s1.cmp = 1)) ∧
    (∀ (F : FloatOps) (s : VM) (ra rb : Nat) (c : Bool) (o : Option String)
        (s1 : VM),
      s.code.get? s.pc = some (.Op .CMP) →
      s.code.get? (s.pc + 1) = some (.Reg ra) →
      s.code.get? (s.pc + 2) = some (.Reg rb) →
      ra < NUM_REGISTERS → rb < NUM_REGISTERS →
      step F s = .ok (c, o) s1 →
      (s1.cmp = 1 ↔ s.regs ra < s.regs rb) ∧
      (s1.cmp = 0 ↔ s.regs rb = s.regs ra) ∧
      (s1.cmp = -1 ↔ s.regs rb < s.regs ra)) ∧
    (∀ (F : FloatOps) (s : VM) (x : Int) (rb : Nat) (c : Bool)
        (o : Option String) (s1 : VM),
      s.code.get? s.pc = some (.Op .CMPL) →
      s.code.get? (s.pc + 1) = some (.Int x) →
      s.code.get? (s.pc + 2) = some (.Reg rb) →
      rb < NUM_REGISTERS →
      step F s = .ok (c, o) s1 →
      (s1.cmp = 1 ↔ x < s.regs rb) ∧
      (s1.cmp = 0 ↔ s.regs rb = x) ∧
      (s1.cmp = -1 ↔ s.regs rb < x)) := by
  refine ⟨fun _ => rfl, ?_, ?_, ?_⟩
  · intro F s c o s1 hrange hstep
    rcases step_cmp_preserved hstep with he | h | h | h
    · rw [he]; exact hrange
    · exact Or.inl h
    · exact Or.inr (Or.inl h)
    · exact Or.inr (Or.inr h)
  · intro F s ra rb c o s1 h0 h1 h2 hra hrb hstep
    rw [step_CMP_ok F s ra rb h0 h1 h2 hra hrb] at hstep
    cases hstep
    exact ⟨cmp3_eq_one_iff _ _, cmp3_eq_zero_iff _ _, cmp3_eq_negone_iff _ _⟩
  · intro F s x rb c o s1 h0 h1 h2 hrb hstep
    rw [step_CMPL_ok F s x rb h0 h1 h2 hrb] at hstep
    cases hstep
    exact ⟨cmp3_eq_one_iff _ _, cmp3_eq_zero_iff _ _, cmp3_eq_negone_iff _ _⟩

/-- C2: deserialize after serialize is the identity on every instruction
stream the assembler produces.  The two side conditions are the bounds the
Rust types guarantee: a parsed f64 literal is a 64-bit pattern, and a Vec
length (and hence every label address) fits in usize. -/
theorem assembler_serialize_roundtrip
    (fromStrF : List Char → Option Nat) (fmtF : Nat → String) (raw : String)
    (fname : String) (S : List Code)
    (hF : ∀ t b, fromStrF t = some b → b < twoPow64)
    (hlen : S.length < twoPow64)
    (hparse : parse_string fromStrF raw fname = .ok S) :
    ∃ bs, serialize fmtF S = .ok bs ∧ deserialize bs = .ok S := by
  obtain ⟨hwf, haddr⟩ := parse_string_wf hF hparse
  exact serialize_then_deserialize fmtF S hwf
    (fun a ha => lt_of_le_of_lt (haddr a ha) hlen)

/-- C2 witness program: SET 2 r0, a label, a jump back to it, HALT. -/
def rtCode : List Code :=
  [.Op .SET, .Int 2, .Reg 0, .Op .JMP, .Addr 3, .Op .HALT]

theorem assembler_serialize_roundtrip_witness :
    ∃ bs, serialize (fun _ => "") rtCode = .ok bs ∧
      deserialize bs = .ok rtCode :=
  assembler_serialize_roundtrip (fun _ => none) (fun _ => "")
    "SET 2 r0\nmain:\nJMP main\nHALT" "w" rtCode
    (fun _ _ h => nomatch h) (by decide) rfl

/-- C5: a successful CALL pushes the return address pc+2 and bumps csp by
one; a successful RET from any state holding that frame restores csp and
jumps to the stored return address; a successful PUSHRF writes regs[0..n)
to the stack above the old sp, and a successful POPRF from any later state
whose stack still holds that frame restores sp and regs[0..n). -/
theorem call_ret_frame_balance :
    (∀ (F : FloatOps) (s : VM) (a : Nat) (c : Bool) (o : Option String)
        (s1 : VM),
      s.code.get? s.pc = some (.Op .CALL) →
      s.code.get? (s.pc + 1) = some (.Addr a) →
      step F s = .ok (c, o) s1 →
      s1.csp = s.csp + 1 ∧ s1.call_stack s.csp = s.pc + 2) ∧
    (∀ (F : FloatOps) (s u : VM) (c : Bool) (o : Option String) (u1 : VM),
      u.code.get? u.pc = some (.Op .RET) →
      u.csp = s.csp + 1 → u.call_stack s.csp = s.pc + 2 →
      step F u = .ok (c, o) u1 →
      u1.csp = s.csp ∧ u1.pc = s.pc + 2) ∧
    (∀ (F : FloatOps) (s : VM) (v : Int) (c : Bool) (o : Option String)
        (s1 : VM),
      s.code.get? s.pc = some (.Op .PUSHRF) →
      s.code.get? (s.pc + 1) = some (.Int v) →
      step F s = .ok (c, o) s1 →
      s1.sp = s.sp + v.toNat ∧
      ∀ j, s.sp ≤ j → j < s.sp + v.toNat → s1.stack j = s.regs (j - s.sp)) ∧
    (∀ (F : FloatOps) (s t : VM) (v : Int) (c : Bool) (o : Option String)
        (t1 : VM),
      t.code.get? t.pc = some (.Op .POPRF) →
      t.code.get? (t.pc + 1) = some (.Int v) →
      t.sp = s.sp + v.toNat →
      (∀ j, s.sp ≤ j → j < s.sp + v.toNat → t.stack j = s.regs (j - s.sp)) →
      step F t = .ok (c, o) t1 →
      t1.sp = s.sp ∧ ∀ i, i < v.toNat → t1.regs i = s.regs i) := by
  refine ⟨?_, ?_, ?_, ?_⟩
  · intro F s a c o s1 h0 h1 hstep
    by_cases hcsp : s.csp < CALL_STACK_SIZE
    · rw [step_CALL_ok F s a h0 h1 hcsp] at hstep
      cases hstep
      exact ⟨rfl, by simp [upd]⟩
    · rw [step_CALL_overflow F s a h0 h1 (not_lt.mp hcsp)] at hstep
      cases hstep
  · intro F s u c o u1 h0 hu hret hstep
    have hne : ¬ u.csp = 0 := by omega
    rw [step_RET_ok F u h0 hne] at hstep
    cases hstep
    refine ⟨?_, ?_⟩
    · show u.csp - 1 = s.csp
      omega
    · show u.call_stack (u.csp - 1) = s.pc + 2
      rw [show u.csp - 1 = s.csp by omega]
      exact hret
  · intro F s v c o s1 h0 h1 hstep
    simp only [step, consume_op, consume_int, h0, h1, Res.bind_ok] at hstep
    split at hstep
    · cases hstep
    · split at hstep
      · cases hstep
      · cases hstep
        refine ⟨?_, ?_⟩
        · rw [pushFrame_sp]
        · intro j hj1 hj2
          rw [pushFrame_stack, if_pos]
          exact ⟨hj1, hj2⟩
  · intro F s t v c o t1 h0 h1 hsp hframe hstep
    simp only [step, consume_op, consume_int, h0, h1, Res.bind_ok] at hstep
    split at hstep
    · cases hstep
    · split at hstep
      · cases hstep
      · cases hstep
        refine ⟨?_, ?_⟩
        · rw [popFrame_sp]
          show t.sp - v.toNat = s.sp
          omega
        · intro i hi
          have hk : v.toNat ≤ ({ t with pc := t.pc + 2 } : VM).sp := by
            show v.toNat ≤ t.sp
            omega
          rw [popFrame_regs _ _ i hk, if_pos hi]
          show t.stack (t.sp - v.toNat + i) = s.regs i
          rw [show t.sp - v.toNat + i = s.sp + i by omega]
          have h := hframe (s.sp + i) (by omega) (by omega)
          rw [h, Nat.add_sub_cancel_left]

/-- C10 base state: one PUSHRF 1 instruction with sp one below the top. -/
def pushrfBoundaryState : VM :=
  { VM.new [.Op .PUSHRF, .Int 1] with sp := STACK_SIZE - 1 }

/-- C10 counterexample: at the boundary sp + 1 = STACK_SIZE the PUSHRF is
rejected with a stack-overflow error, but the state carried by the error is
NOT the unchanged pre-instruction state: its pc has advanced to 2. -/
theorem pushrf_error_changes_state_cex :
    step F0 pushrfBoundaryState =
      .err (errFmt "PUSHRF 1: stack overflow")
        { pushrfBoundaryState with pc := 2 } ∧
    ({ pushrfBoundaryState with pc := 2 } : VM).pc ≠ pushrfBoundaryState.pc := by
  constructor
  · rfl
  · decide

/-- C10 (amended): PUSHRF n is rejected with a stack-overflow error
whenever sp + n is at least STACK_SIZE — including when exactly n free
slots remain — with the error state equal to the input state except that pc
has advanced past the operand; yet n consecutive PUSH instructions from a
state with sp + n at most STACK_SIZE all succeed. -/
theorem pushrf_boundary_vs_push :
    (∀ (F : FloatOps) (s : VM) (v : Int),
      s.code.get? s.pc = some (.Op .PUSHRF) →
      s.code.get? (s.pc + 1) = some (.Int v) →
      1 ≤ v → v < (NUM_REGISTERS : Int) →
      STACK_SIZE ≤ s.sp + v.toNat →
      step F s = .err (errFmt ("PUSHRF " ++ toString v.toNat ++
        ": stack overflow")) { s with pc := s.pc + 2 }) ∧
    (∀ (F : FloatOps) (r : Nat), r < NUM_REGISTERS → ∀ (n : Nat) (s : VM),
      (∀ i, i < n → s.code.get? (s.pc + 2 * i) = some (.Op .PUSH) ∧
        s.code.get? (s.pc + 2 * i + 1) = some (.Reg r)) →
      s.sp + n ≤ STACK_SIZE →
      ∃ s2, stepN F n s = .ok () s2 ∧ s2.sp = s.sp + n) := by
  constructor
  · intro F s v h0 h1 hv1 hv2 hsp
    exact step_PUSHRF_overflow F s v h0 h1 hv1 hv2 hsp
  · intro F r hr n
    induction n with
    | zero =>
      intro s hcode hsp
      exact ⟨s, rfl, by omega⟩
    | succ n ih =>
      intro s hcode hsp
      obtain ⟨h00, h01⟩ := hcode 0 (by omega)
      rw [show s.pc + 2 * 0 = s.pc by ring] at h00
      rw [show s.pc + 2 * 0 + 1 = s.pc + 1 by ring] at h01
      have hstep := step_PUSH_ok F s r h00 h01 hr (by omega)
      obtain ⟨s2, h2, hsp2⟩ :=
        ih { s with pc := s.pc + 2, stack := upd s.stack s.sp (s.regs r), sp := s.sp + 1 }
          (by
            intro i hi
            have h := hcode (i + 1) (by omega)
            constructor
            · have h1 := h.1
              rw [show s.pc + 2 * (i + 1) = s.pc + 2 + 2 * i by ring] at h1
              exact h1
            · have h1 := h.2
              rw [show s.pc + 2 * (i + 1) + 1 = s.pc + 2 + 2 * i + 1 by ring] at h1
              exact h1)
          (by
            show s.sp + 1 + n ≤ STACK_SIZE
            omega)
      have hsp2b : s2.sp = s.sp + 1 + n := hsp2
      refine ⟨s2, ?_, by omega⟩
      simp only [stepN, hstep]
      exact h2

end UVM
